import Mathlib

/-!
Shallow embedding of the analysis core of the peasauce interactive
disassembler (src/python/disassembly.py and src/python/disassembly_data.py),
together with proofs about its block store, line index, split operation,
address checking, ascii shaping and labeling code.

Modelling conventions used throughout this file:
* Python integers are modelled as `Nat` (all quantities handled by the
  embedded code are non-negative); Python 2 `/` on ints is floor division
  and is modelled by `Nat` division.
* Python lists are Lean `List`s; `list.insert(i, x)` is `listInsert`,
  in-place element update is `listSet`/`listModify`, negative indexing
  (`xs[-1]`) is `pyget` over `Int` indices.
* Python dicts keyed by addresses or segment ids are association lists
  (`dictGet`/`dictSet`).
* `bisect.bisect_right` is modelled by its documented contract on the sorted
  lists the program maintains: the number of leading elements `≤ key`.
* Functions that can raise in Python (unbound locals, out-of-range
  subscripts, `None` field access) return `Option` results, with `none`
  for the failure paths; such paths are unreachable in the well-formed
  states the theorems quantify over.
* Decoded instruction entries are modelled as already-realised `Match`
  values; the lazy integer-offset representation upgraded by
  `realise_instruction_entry` is a memoization device producing the same
  decoded match, so the embedding stores only the decoded form.
-/

namespace Peasauce

/-- Python `list.insert(i, a)`: inserts before position `i`, clamped to the
list length (the program only inserts at positions `≤ len`). -/
def listInsert (xs : List α) (i : Nat) (a : α) : List α :=
  xs.take i ++ a :: xs.drop i

/-- Replace element `i` by `f` applied to it; out-of-range leaves the list
unchanged (Python would raise, unreachable in well-formed states). -/
def listModify (xs : List α) (i : Nat) (f : α → α) : List α :=
  xs.take i ++ (match xs.drop i with
    | [] => []
    | a :: rest => f a :: rest)

/-- Python `xs[i] = a`. -/
def listSet (xs : List α) (i : Nat) (a : α) : List α :=
  listModify xs i (fun _ => a)

/-- Python subscripting with possibly negative index: `xs[i]`; `none` models
an `IndexError`. -/
def pyget (xs : List α) (i : Int) : Option α :=
  if 0 ≤ i then xs.get? i.toNat
  else if (-i).toNat ≤ xs.length then xs.get? (xs.length - (-i).toNat)
  else none

/-- `bisect.bisect_right` on the sorted lists maintained by the program:
the insertion point to the right of existing entries, i.e. the number of
leading elements `≤ key`. -/
def bisect_right (a : List Nat) (x : Nat) : Nat :=
  (a.takeWhile (fun y => decide (y ≤ x))).length

/-- Python `d.get(key)` for an association-list dict. -/
def dictGet (d : List (Nat × α)) (k : Nat) : Option α :=
  (d.find? (fun p => p.1 == k)).map (fun p => p.2)

/-- Python `d[key] = v` for an association-list dict (replaces an existing
binding, otherwise appends). -/
def dictSet (d : List (Nat × α)) (k : Nat) (v : α) : List (Nat × α) :=
  if (d.find? (fun p => p.1 == k)).isSome then
    d.map (fun p => if p.1 == k then (k, v) else p)
  else d ++ [(k, v)]

/-- Insert into a list keeping ascending order (helper for `sortNat`). -/
def orderedInsertNat (a : Nat) : List Nat → List Nat
  | [] => [a]
  | b :: l => if a ≤ b then a :: b :: l else b :: orderedInsertNat a l

/-- Python `list.sort()` on a list of ints, modelled as insertion sort. -/
def sortNat : List Nat → List Nat
  | [] => []
  | a :: l => orderedInsertNat a (sortNat l)

/-- Ascending-order check used to state sortedness of address lists. -/
def sortedNat : List Nat → Bool
  | [] => true
  | [_] => true
  | a :: b :: l => decide (a ≤ b) && sortedNat (b :: l)

/-- Python `max` over a list of ints (`0` models the crash on empty input,
which the program guards against). -/
def maxNat (xs : List Nat) : Nat :=
  xs.foldl Nat.max 0

/-- Upper-case hex digit for a value `< 16`. -/
def hexDigit (n : Nat) : Char :=
  if n < 10 then Char.ofNat (48 + n) else Char.ofNat (55 + n)

/-- Fuel-driven accumulation of upper-case hex digits (the fuel `n + 1`
always suffices since the value shrinks by a factor 16 each step). -/
def natToHexAux : Nat → Nat → List Char → List Char
  | 0, _, acc => acc
  | _ + 1, 0, acc => acc
  | fuel + 1, n, acc => natToHexAux fuel (n / 16) (hexDigit (n % 16) :: acc)

/-- Python `"%X" % n`. -/
def natToHex (n : Nat) : String :=
  if n = 0 then "0" else String.mk (natToHexAux (n + 1) n [])

/-- Python `"%06X" % n`: upper-case hex, zero-padded to at least 6 digits. -/
def hex6 (n : Nat) : String :=
  let s := natToHex n
  String.mk (List.replicate (6 - s.length) '0') ++ s

/-! ## disassembly_data.py -/

/-- `disassembly_data._count_bits`. -/
def count_bits_aux : Nat → Nat → Nat
  | 0, _ => 0
  | _ + 1, 0 => 0
  | fuel + 1, v => count_bits_aux fuel (v >>> 1) + 1

/-- `disassembly_data._count_bits` (fuel form; `v` steps always suffice). -/
def count_bits (v : Nat) : Nat :=
  count_bits_aux v v

/-- `disassembly_data._make_bitmask`. -/
def make_bitmask : Nat → Nat
  | 0 => 0
  | bitcount + 1 => make_bitmask bitcount ||| (1 <<< bitcount)

def DATA_TYPE_CODE : Nat := 1
def DATA_TYPE_ASCII : Nat := 2
def DATA_TYPE_BYTE : Nat := 3
def DATA_TYPE_WORD : Nat := 4
def DATA_TYPE_LONGWORD : Nat := 5
def DATA_TYPE_BIT0 : Nat := DATA_TYPE_CODE - 1
def DATA_TYPE_BITCOUNT : Nat := count_bits DATA_TYPE_LONGWORD
def DATA_TYPE_BITMASK : Nat := make_bitmask DATA_TYPE_BITCOUNT

/-- Block is not backed by file data. -/
def BLOCK_FLAG_ALLOC : Nat := 1 <<< (DATA_TYPE_BITCOUNT + 0)

/-- Block has been processed by the discovery engine. -/
def BLOCK_FLAG_PROCESSED : Nat := 1 <<< (DATA_TYPE_BITCOUNT + 1)

/-- Flags preserved when a block is split. -/
def BLOCK_SPLIT_BITMASK : Nat := BLOCK_FLAG_ALLOC ||| DATA_TYPE_BITMASK ||| BLOCK_FLAG_PROCESSED

def NUMERIC_DATA_TYPES : List Nat := [DATA_TYPE_LONGWORD, DATA_TYPE_WORD, DATA_TYPE_BYTE]

/-- A decoded instruction match as delivered by the architecture decoder:
only the fields the core reads (`num_bytes` and `specification.key`) are
modelled. -/
structure Match where
  num_bytes : Nat
  key : String
deriving DecidableEq, Repr

/-- A `line_data` entry of a CODE block: `(type_id, entry)` pairs with type
ids `SLD_INSTRUCTION`, `SLD_COMMENT_FULL_LINE`, `SLD_EQU_LOCATION_RELATIVE`. -/
inductive SLDEntry where
  | instruction (entry : Match)
  | comment_full_line (text : String)
  | equ_location_relative (offset : Nat)
deriving DecidableEq, Repr

/-- `block.line_data`: `None`, a CODE entry list, or an ASCII
`(byte_offset, byte_length)` range list. -/
inductive LineData where
  | noneValue
  | code (entries : List SLDEntry)
  | ascii (ranges : List (Nat × Nat))
deriving DecidableEq, Repr

/-- The CODE entry list of a `line_data` value (empty for the other shapes,
which well-formed CODE blocks never carry). -/
def codeEntries : LineData → List SLDEntry
  | .code entries => entries
  | _ => []

/-- The ASCII range list of a `line_data` value. -/
def asciiRanges : LineData → List (Nat × Nat)
  | .ascii ranges => ranges
  | _ => []

/-- `disassembly_data.SegmentBlock`.  `references` entries are
`(address_in_block, target_address, rendered_code)` tuples. -/
structure SegmentBlock where
  segment_id : Nat := 0
  segment_offset : Nat := 0
  address : Nat := 0
  length : Nat := 0
  flags : Nat := 0
  line_data : LineData := .noneValue
  line_count : Nat := 0
  references : Option (List (Nat × Nat × String)) := none
  old_data_type : Nat := 0
deriving DecidableEq, Repr

/-- `disassembly_data.get_block_data_type`. -/
def get_block_data_type (block : SegmentBlock) : Nat :=
  (block.flags >>> DATA_TYPE_BIT0) &&& DATA_TYPE_BITMASK

/-- `disassembly_data.set_block_data_type`: clears the data-type bits of
`flags` and installs `data_type` there (the Python `&= ~mask` on the
data-type field, expressed over `Nat` by splitting off the low bits, as
`DATA_TYPE_BIT0 = 0`). -/
def set_block_data_type (block : SegmentBlock) (data_type : Nat) : SegmentBlock :=
  { block with
    old_data_type := get_block_data_type block
    flags := (block.flags - (block.flags &&& (DATA_TYPE_BITMASK <<< DATA_TYPE_BIT0)))
      ||| ((data_type &&& DATA_TYPE_BITMASK) <<< DATA_TYPE_BIT0) }

/-! ## loaderlib segment interface

A segment as the loader delivers it: base address, total length (file-backed
plus BSS tail) and the cached raw bytes. -/

structure Segment where
  address : Nat := 0
  length : Nat := 0
  data : List Nat := []
deriving DecidableEq, Repr

/-- `loaderlib.get_segment_address`. -/
def get_segment_address (segments : List Segment) (segment_id : Nat) : Nat :=
  (segments.getD segment_id {}).address

/-- `loaderlib.get_segment_length`. -/
def get_segment_length (segments : List Segment) (segment_id : Nat) : Nat :=
  (segments.getD segment_id {}).length

/-- `loaderlib.get_segment_data`. -/
def get_segment_data (segments : List Segment) (segment_id : Nat) : List Nat :=
  (segments.getD segment_id {}).data

/-- `disassembly_data.ProgramData`, restricted to the fields the embedded
operations read or write.  The decoder API functions stored on the object by
`onload_set_disassemblylib_functions` are modelled by the one predicate the
embedded code consults (`dis_is_final_instruction_func`); the notification
callbacks (`symbol_insert_func` etc.) are omitted, as they do not affect the
state examined here.  `block_line0s` holds `0` placeholders where the source
stores `None`; such entries sit at or after `block_line0s_dirtyidx` and are
overwritten by recalculation before they can be read. -/
structure ProgramData where
  blocks : List SegmentBlock := []
  block_addresses : List Nat := []
  block_line0s : List Nat := []
  block_line0s_dirtyidx : Option Nat := none
  post_segment_addresses : List (Nat × List Nat) := []
  address_ranges : List (Nat × Nat × List Nat) := []
  symbols_by_address : List (Nat × String) := []
  loader_segments : List Segment := []
  loader_has_segment_headers : Bool := false
  dis_is_final_instruction_func : Match → Bool := fun _ => false

/-! ## Line computation (disassembly.py) -/

/-- `disassembly.DisplayConfiguration`. -/
structure DisplayConfiguration where
  trailing_line_exit : Bool := true
  trailing_line_branch : Bool := true
  trailing_line_trap : Bool := true

def display_configuration : DisplayConfiguration := {}

def SEGMENT_HEADER_LINE_COUNT : Nat := 2

/-- `disassembly.get_block_header_line_count`. -/
def get_block_header_line_count (pd : ProgramData) (block : SegmentBlock) : Nat :=
  if block.segment_offset = 0 && pd.loader_has_segment_headers then
    SEGMENT_HEADER_LINE_COUNT
  else 0

/-- `disassembly.get_instruction_line_count`.  The unused `pd` parameter
mirrors the source signature. -/
def get_instruction_line_count (_pd : ProgramData) (m : Match) : Nat :=
  let line_count := 1
  if display_configuration.trailing_line_trap && m.key == "TRAP" then
    line_count + 1
  else if display_configuration.trailing_line_branch && (m.key == "Bcc" || m.key == "DBcc") then
    line_count + 1
  else
    line_count

/-- The greedy width walk of `disassembly.get_data_type_sizes`: result
entries are `(size_char, num_bytes, size_count, size_lines)`. -/
def data_type_sizes_walk (alloc : Bool) :
    List (String × Nat) → Nat → List (String × Nat × Nat × Nat)
  | [], _ => []
  | (size_char, num_bytes) :: rest, unconsumed_byte_count =>
    let size_count := unconsumed_byte_count / num_bytes
    if size_count = 0 then
      data_type_sizes_walk alloc rest unconsumed_byte_count
    else
      let size_lines := if alloc then 1 else size_count
      (size_char, num_bytes, size_count, size_lines)
        :: data_type_sizes_walk alloc rest (unconsumed_byte_count - size_count * num_bytes)

/-- `disassembly.get_data_type_sizes`.  For a non-numeric data type the
source leaves `size_types` unbound and raises; the empty width list models
that unreachable path. -/
def get_data_type_sizes (block : SegmentBlock) : List (String × Nat × Nat × Nat) :=
  let data_type := get_block_data_type block
  let size_types : List (String × Nat) :=
    if data_type = DATA_TYPE_LONGWORD then [("L", 4), ("W", 2), ("B", 1)]
    else if data_type = DATA_TYPE_WORD then [("W", 2), ("B", 1)]
    else if data_type = DATA_TYPE_BYTE then [("B", 1)]
    else []
  data_type_sizes_walk (block.flags &&& BLOCK_FLAG_ALLOC != 0) size_types block.length

/-- The CODE branch of the `disassembly.get_block_line_count` loop: one
`get_instruction_line_count` per instruction entry, one line per full-line
comment or location-relative EQU entry. -/
def code_entries_line_count (pd : ProgramData) : List SLDEntry → Nat
  | [] => 0
  | .instruction m :: rest => get_instruction_line_count pd m + code_entries_line_count pd rest
  | .comment_full_line _ :: rest => 1 + code_entries_line_count pd rest
  | .equ_location_relative _ :: rest => 1 + code_entries_line_count pd rest

/-- Sum of the `size_lines` components, as accumulated by the numeric branch
of `disassembly.get_block_line_count`. -/
def sizes_line_count : List (String × Nat × Nat × Nat) → Nat
  | [] => 0
  | (_, _, _, size_lines) :: rest => size_lines + sizes_line_count rest

/-- `disassembly.lookup_block_by_address` (defined ahead of
`get_block_line_count`, which calls it for the footer's block index). -/
def lookup_block_by_address (pd : ProgramData) (lookup_key : Nat) :
    Option SegmentBlock × Int :=
  let lookup_index := bisect_right pd.block_addresses lookup_key
  (pyget pd.blocks ((lookup_index : Int) - 1), (lookup_index : Int) - 1)

/-- `disassembly.get_block_footer_line_count`.  The `block_idx` parameter is
only consulted by disabled (`if False`) source branches; it is kept for
signature parity. -/
def get_block_footer_line_count (pd : ProgramData) (block : SegmentBlock)
    (_block_idx : Int) : Nat :=
  let segments := pd.loader_segments
  if block.segment_offset + block.length = get_segment_length segments block.segment_id then
    if block.segment_id < segments.length - 1 then 1 else 0
  else if get_block_data_type block = DATA_TYPE_CODE then
    match (codeEntries block.line_data).getLast? with
    | some (.instruction entry) =>
      if display_configuration.trailing_line_exit && pd.dis_is_final_instruction_func entry then
        1
      else 0
    | some _ => 0
    | none => 0
  else 0

/-- `disassembly.get_block_line_count`.  The non-CODE, non-numeric,
non-ASCII branch of the source returns `None` (and every caller would then
raise); that unreachable path is modelled as `0`.  Note the faithful quirk
of the ASCII branch: `line_count = len(block.line_data)` overwrites the
header contribution instead of adding to it. -/
def get_block_line_count (pd : ProgramData) (block : SegmentBlock) : Nat :=
  let line_count := get_block_header_line_count pd block
  let data_type := get_block_data_type block
  let line_count :=
    if data_type = DATA_TYPE_CODE then
      line_count + code_entries_line_count pd (codeEntries block.line_data)
    else if data_type ∈ NUMERIC_DATA_TYPES then
      line_count + sizes_line_count (get_data_type_sizes block)
    else if data_type = DATA_TYPE_ASCII then
      (asciiRanges block.line_data).length
    else 0
  let segments := pd.loader_segments
  let line_count :=
    if block.segment_offset + block.length = get_segment_length segments block.segment_id then
      match dictGet pd.post_segment_addresses block.segment_id with
      | some addresses => line_count + addresses.length
      | none => line_count
    else line_count
  let block_idx := (lookup_block_by_address pd block.address).2
  line_count + get_block_footer_line_count pd block block_idx

/-- `disassembly.get_block_line_count_cached`, as a pure read: the source
also writes the computed value back into `block.line_count`, which never
changes the value any later read observes. -/
def get_block_line_count_cached (pd : ProgramData) (block : SegmentBlock) : Nat :=
  if block.line_count = 0 then get_block_line_count pd block else block.line_count

/-- The recomputation loop of `disassembly._recalculate_line_count_index`:
first line numbers of `blocks`, starting at cumulative count
`line_count_start`. -/
def cumulLine0s (pd : ProgramData) : List SegmentBlock → Nat → List Nat
  | [], _ => []
  | b :: rest, line_count_start =>
    line_count_start :: cumulLine0s pd rest (line_count_start + get_block_line_count_cached pd b)

/-- `disassembly._recalculate_line_count_index` (always called with the
default `dirtyidx=None` argument by the embedded callers). -/
def recalculate_line_count_index (pd : ProgramData) : ProgramData :=
  match pd.block_line0s_dirtyidx with
  | none => pd
  | some dirtyidx =>
    let line_count_start :=
      if dirtyidx > 0 then
        pd.block_line0s.getD (dirtyidx - 1) 0 +
          (match pd.blocks.get? (dirtyidx - 1) with
           | some b => get_block_line_count_cached pd b
           | none => 0)
      else 0
    { pd with
      block_line0s := pd.block_line0s.take dirtyidx ++
        cumulLine0s pd (pd.blocks.drop dirtyidx) line_count_start
      block_line0s_dirtyidx := none }

/-- `disassembly.get_block_line_number`. -/
def get_block_line_number (pd : ProgramData) (block_idx : Int) : Option Nat :=
  pyget (recalculate_line_count_index pd).block_line0s block_idx

/-- `disassembly.clear_block_line_count` (always called with an explicit
`block_idx` by the embedded callers). -/
def clear_block_line_count (pd : ProgramData) (block_idx : Nat) : ProgramData :=
  let pd :=
    { pd with
      block_line0s_dirtyidx :=
        match pd.block_line0s_dirtyidx with
        | none => some block_idx
        | some d => if block_idx < d then some block_idx else some d }
  { pd with blocks := listModify pd.blocks block_idx (fun b => { b with line_count := 0 }) }

/-- `disassembly.lookup_block_by_line_count`. -/
def lookup_block_by_line_count (pd : ProgramData) (lookup_key : Nat) :
    Option SegmentBlock × Int :=
  let pd := recalculate_line_count_index pd
  let lookup_index := bisect_right pd.block_line0s lookup_key
  (pyget pd.blocks ((lookup_index : Int) - 1), (lookup_index : Int) - 1)

/-- `disassembly.insert_block`.  The source inserts `None` into
`block_line0s`; the `0` placeholder is never read before the recalculation
that the accompanying dirty-index update forces. -/
def insert_block (pd : ProgramData) (insert_idx : Nat) (block : SegmentBlock) : ProgramData :=
  { pd with
    block_addresses := listInsert pd.block_addresses insert_idx block.address
    block_line0s := listInsert pd.block_line0s insert_idx 0
    blocks := listInsert pd.blocks insert_idx block
    block_line0s_dirtyidx :=
      match pd.block_line0s_dirtyidx with
      | none => some insert_idx
      | some d => if insert_idx < d then some insert_idx else some d }

/-! ## Address and line queries (disassembly.py) -/

/-- The entry loop of `disassembly.get_code_block_info_for_address`:
accumulates `bytes_used` and `line_number`, carrying `previous_result`.
Falling off the end with the address at or past the accumulated bytes
models the source's implicit `return None`. -/
def code_info_addr_walk (pd : ProgramData) (base_address address : Nat) :
    List SLDEntry → Nat → Nat → Option (Nat × Match) → Option (Nat × Match)
  | [], bytes_used, _, previous_result =>
    if address < base_address + bytes_used then previous_result else none
  | .instruction entry :: rest, bytes_used, line_number, previous_result =>
    if address < base_address + bytes_used then previous_result
    else if address = base_address + bytes_used then some (line_number, entry)
    else
      code_info_addr_walk pd base_address address rest
        (bytes_used + entry.num_bytes)
        (line_number + get_instruction_line_count pd entry)
        (some (line_number, entry))
  | .comment_full_line _ :: rest, bytes_used, line_number, previous_result =>
    code_info_addr_walk pd base_address address rest bytes_used (line_number + 1) previous_result
  | .equ_location_relative _ :: rest, bytes_used, line_number, previous_result =>
    code_info_addr_walk pd base_address address rest bytes_used (line_number + 1) previous_result

/-- `disassembly.get_code_block_info_for_address`. -/
def get_code_block_info_for_address (pd : ProgramData) (address : Nat) :
    Option (Nat × Match) :=
  match lookup_block_by_address pd address with
  | (some block, block_idx) =>
    match pyget pd.block_addresses block_idx, get_block_line_number pd block_idx with
    | some base_address, some line0 =>
      code_info_addr_walk pd base_address address (codeEntries block.line_data) 0
        (line0 + get_block_header_line_count pd block) none
    | _, _ => none
  | (none, _) => none

/-- The entry loop of `disassembly.get_code_block_info_for_line_number`.
On a full-line comment whose line is the queried one the source computes
`base_address + entry` with `entry` a string and raises; that path is
modelled as `none`, as is the raise on a location-relative EQU line with no
preceding instruction. -/
def code_info_line_walk (pd : ProgramData) (base_address line_number : Nat) :
    List SLDEntry → Nat → Nat → Option (Nat × Match) → Option (Nat × Match)
  | [], _, line_count, previous_result =>
    if line_number < line_count then previous_result else none
  | .instruction entry :: rest, bytes_used, line_count, previous_result =>
    if line_number < line_count then previous_result
    else if line_number = line_count then some (base_address + bytes_used, entry)
    else
      code_info_line_walk pd base_address line_number rest
        (bytes_used + entry.num_bytes)
        (line_count + get_instruction_line_count pd entry)
        (some (base_address + bytes_used, entry))
  | .comment_full_line _ :: rest, bytes_used, line_count, previous_result =>
    if line_number = line_count then none
    else code_info_line_walk pd base_address line_number rest bytes_used (line_count + 1)
      previous_result
  | .equ_location_relative offset :: rest, bytes_used, line_count, previous_result =>
    if line_number = line_count then
      match previous_result with
      | some (_, m) => some (base_address + offset, m)
      | none => none
    else code_info_line_walk pd base_address line_number rest bytes_used (line_count + 1)
      previous_result

/-- `disassembly.get_code_block_info_for_line_number`. -/
def get_code_block_info_for_line_number (pd : ProgramData) (line_number : Nat) :
    Option (Nat × Match) :=
  match lookup_block_by_line_count pd line_number with
  | (some block, block_idx) =>
    if get_block_data_type block ≠ DATA_TYPE_CODE then none
    else
      match pyget pd.block_addresses block_idx, get_block_line_number pd block_idx with
      | some base_address, some line0 =>
        code_info_line_walk pd base_address line_number (codeEntries block.line_data) 0
          (line0 + get_block_header_line_count pd block) none
      | _, _ => none
  | (none, _) => none

/-- The numeric branch loop of `disassembly.get_line_number_for_address`. -/
def numeric_addr_to_line_walk :
    List (String × Nat × Nat × Nat) → Nat → Nat → Nat → Option Nat
  | [], _, _, _ => none
  | (_, num_bytes, size_count, size_lines) :: rest,
      block_lineN, block_offsetN, address_block_offset =>
    let block_offset0 := block_offsetN
    let block_offsetN := block_offsetN + num_bytes * size_count
    let block_line0 := block_lineN
    let block_lineN := block_lineN + size_lines
    if block_offset0 ≤ address_block_offset ∧ address_block_offset < block_offsetN then
      some (block_line0 + (address_block_offset - block_offset0) / num_bytes)
    else numeric_addr_to_line_walk rest block_lineN block_offsetN address_block_offset

/-- The ASCII branch loop of `disassembly.get_line_number_for_address`. -/
def ascii_addr_to_line_walk :
    List (Nat × Nat) → Nat → Nat → Nat → Option Nat
  | [], _, _, _ => none
  | (_, byte_length) :: rest, block_lineN, block_offsetN, address_block_offset =>
    let block_offset0 := block_offsetN
    let block_offsetN := block_offsetN + byte_length
    let block_line0 := block_lineN
    let block_lineN := block_lineN + 1
    if block_offset0 ≤ address_block_offset ∧ address_block_offset < block_offsetN then
      some block_line0
    else ascii_addr_to_line_walk rest block_lineN block_offsetN address_block_offset

/-- `disassembly.get_line_number_for_address`.  The CODE branch subscripts
the info result, raising when it is `None`; that raise is modelled as
`none`. -/
def get_line_number_for_address (pd : ProgramData) (address : Nat) : Option Nat :=
  match lookup_block_by_address pd address with
  | (some block, block_idx) =>
    let data_type := get_block_data_type block
    if data_type = DATA_TYPE_CODE then
      match get_code_block_info_for_address pd address with
      | some result => some result.1
      | none => none
    else if data_type ∈ NUMERIC_DATA_TYPES then
      match get_block_line_number pd block_idx with
      | some line0 =>
        numeric_addr_to_line_walk (get_data_type_sizes block)
          (line0 + get_block_header_line_count pd block) 0 (address - block.address)
      | none => none
    else if data_type = DATA_TYPE_ASCII then
      match get_block_line_number pd block_idx with
      | some line0 =>
        ascii_addr_to_line_walk (asciiRanges block.line_data)
          (line0 + get_block_header_line_count pd block) 0 (address - block.address)
      | none => none
    else none
  | (none, _) => none

/-- The numeric branch loop of `disassembly.get_address_for_line_number`. -/
def numeric_line_to_addr_walk (block_address : Nat) :
    List (String × Nat × Nat × Nat) → Nat → Nat → Nat → Option Nat
  | [], _, _, _ => none
  | (_, num_bytes, size_count, size_lines) :: rest, block_lineN, block_offsetN, line_number =>
    let block_offset0 := block_offsetN
    let block_offsetN := block_offsetN + num_bytes * size_count
    let block_line0 := block_lineN
    let block_lineN := block_lineN + size_lines
    if block_line0 ≤ line_number ∧ line_number < block_lineN then
      some (block_address + block_offset0 + (line_number - block_line0) * num_bytes)
    else numeric_line_to_addr_walk block_address rest block_lineN block_offsetN line_number

/-- The ASCII branch loop of `disassembly.get_address_for_line_number`. -/
def ascii_line_to_addr_walk (block_address : Nat) :
    List (Nat × Nat) → Nat → Nat → Nat → Option Nat
  | [], _, _, _ => none
  | (_, byte_length) :: rest, block_lineN, block_offsetN, line_number =>
    let block_offset0 := block_offsetN
    let block_offsetN := block_offsetN + byte_length
    let block_line0 := block_lineN
    let block_lineN := block_lineN + 1
    if block_line0 ≤ line_number ∧ line_number < block_lineN then
      some (block_address + block_offset0)
    else ascii_line_to_addr_walk block_address rest block_lineN block_offsetN line_number

/-- `disassembly.get_address_for_line_number`. -/
def get_address_for_line_number (pd : ProgramData) (line_number : Nat) : Option Nat :=
  match lookup_block_by_line_count pd line_number with
  | (some block, block_idx) =>
    let data_type := get_block_data_type block
    if data_type = DATA_TYPE_CODE then
      match get_code_block_info_for_line_number pd line_number with
      | some result => some result.1
      | none => none
    else if data_type ∈ NUMERIC_DATA_TYPES then
      match get_block_line_number pd block_idx with
      | some line0 =>
        numeric_line_to_addr_walk block.address (get_data_type_sizes block)
          (line0 + get_block_header_line_count pd block) 0 line_number
      | none => none
    else if data_type = DATA_TYPE_ASCII then
      match get_block_line_number pd block_idx with
      | some line0 =>
        ascii_line_to_addr_walk block.address (asciiRanges block.line_data)
          (line0 + get_block_header_line_count pd block) 0 line_number
      | none => none
    else none
  | (none, _) => none

/-- `disassembly.get_file_footer_line_count`.  The source subscripts
`blocks[-1]`, raising on an empty block list; that path is modelled by the
`2` default. -/
def get_file_footer_line_count (pd : ProgramData) : Nat :=
  let last_block_idx : Int := (pd.blocks.length : Int) - 1
  match pyget pd.blocks last_block_idx with
  | some last_block =>
    if get_block_footer_line_count pd last_block last_block_idx > 0 then 1 else 2
  | none => 2

/-- `disassembly.get_file_line_count`.  The source's `block_line0s is None`
guard (returning `0` before the index is initialised) corresponds to the
failure branch here. -/
def get_file_line_count (pd : ProgramData) : Nat :=
  let last_block_idx : Int := (pd.blocks.length : Int) - 1
  match pyget pd.blocks last_block_idx, get_block_line_number pd last_block_idx with
  | some last_block, some line0 =>
    line0 + get_block_line_count_cached pd last_block + get_file_footer_line_count pd
  | _, _ => 0

/-! ## Known-address checking and symbols (disassembly.py) -/

/-- The range loop of `disassembly.check_known_address`: `inl ()` models the
in-loop `return True`; `inr (pre_ids, addressN)` models reaching the code
after the loop, where `addressN` is the loop variable's last binding
(`none` when the range list is empty and the source would raise a
`NameError` on the unbound name). -/
def check_known_walk (address : Nat) :
    List (Nat × Nat × List Nat) → List Nat → Option Nat →
    Sum Unit (List Nat × Option Nat)
  | [], pre_ids, lastN => .inr (pre_ids, lastN)
  | (address0, addressN, segment_ids) :: rest, pre_ids, _ =>
    if address < address0 then check_known_walk address rest pre_ids (some addressN)
    else if address > addressN then .inr (pre_ids ++ segment_ids, some addressN)
    else .inl ()

/-- `disassembly.check_known_address`: returns the boolean result together
with the possibly updated program state (the function registers first-seen
one-past-a-range addresses in `post_segment_addresses`). -/
def check_known_address (pd : ProgramData) (address : Nat) : Option (Bool × ProgramData) :=
  match check_known_walk address pd.address_ranges [] none with
  | .inl () => some (true, pd)
  | .inr (pre_ids, some addressN) =>
    if address = addressN + 1 then
      if pre_ids.length ≠ 0 then
        let pre_segment_id := maxNat pre_ids
        match dictGet pd.post_segment_addresses pre_segment_id with
        | none =>
          let psa := dictSet pd.post_segment_addresses pre_segment_id [address]
          some (true, { pd with post_segment_addresses := psa })
        | some addresses =>
          if address ∈ addresses then some (true, pd)
          else
            let psa := dictSet pd.post_segment_addresses pre_segment_id
              (sortNat (addresses ++ [address]))
            some (true, { pd with post_segment_addresses := psa })
      else some (true, pd)
    else some (false, pd)
  | .inr (_, none) => none

/-- `disassembly.insert_symbol`.  The `symbol_insert_func` notification
callback is not modelled; the `none` result of `check_known_address` (empty
range list) leaves the state unchanged. -/
def insert_symbol (pd : ProgramData) (address : Nat) (name : String) : ProgramData :=
  match check_known_address pd address with
  | some (true, pd) =>
    { pd with symbols_by_address := dictSet pd.symbols_by_address address name }
  | some (false, pd) => pd
  | none => pd

/-- The merge scan of `disassembly.onload_make_address_ranges`: find the
first stored range adjacent to the new segment's range and update it in
place; `none` means the `for` loop's `else` branch appends instead. -/
def address_ranges_merge (segment_id new_address0 new_addressN : Nat) :
    List (Nat × Nat × List Nat) → Option (List (Nat × Nat × List Nat))
  | [] => none
  | (address0, addressN, segment_ids) :: rest =>
    if addressN + 1 = new_address0 then
      some ((address0, new_addressN - 1, segment_ids ++ [segment_id]) :: rest)
    else if address0 = new_addressN + 1 then
      some ((new_address0, addressN - 1, segment_ids ++ [segment_id]) :: rest)
    else
      (address_ranges_merge segment_id new_address0 new_addressN rest).map
        (fun updated => (address0, addressN, segment_ids) :: updated)

/-- One iteration of the segment loop of
`disassembly.onload_make_address_ranges`. -/
def onload_make_address_ranges_step (segments : List Segment)
    (ranges : List (Nat × Nat × List Nat)) (segment_id : Nat) :
    List (Nat × Nat × List Nat) :=
  let new_address0 := get_segment_address segments segment_id
  let new_addressN := new_address0 + get_segment_length segments segment_id
  match address_ranges_merge segment_id new_address0 new_addressN ranges with
  | some updated => updated
  | none => ranges ++ [(new_address0, new_addressN - 1, [segment_id])]

/-- `disassembly.onload_make_address_ranges`. -/
def onload_make_address_ranges (pd : ProgramData) : ProgramData :=
  { pd with
    address_ranges :=
      (List.range pd.loader_segments.length).foldl
        (onload_make_address_ranges_step pd.loader_segments) [] }

/-! ## Ascii shaping (disassembly.py) -/

/-- `disassembly._get_byte_representation`. -/
def get_byte_representation (byte : Nat) : String :=
  if byte < 16 then toString byte else "$" ++ natToHex byte

/-- The running `last_value` of `disassembly._process_block_as_ascii`:
`none` is Python `None`, `inl` a one-character string, `inr` an int byte. -/
def AsciiLastValue := Option (Sum Char Nat)

/-- Python `last_value != 0` (only an int `0` compares equal to `0`). -/
def ascii_last_value_nonzero : AsciiLastValue → Bool
  | some (.inr 0) => false
  | _ => true

/-- Python `32 <= byte < 127` of the ascii loop. -/
def ascii_printable (byte : Nat) : Bool :=
  32 ≤ byte && byte < 127

/-- The `value` local of the ascii loop (a one-character string for a
printable byte, the int byte otherwise). -/
def ascii_value (byte : Nat) : Sum Char Nat :=
  if ascii_printable byte then .inl (Char.ofNat byte) else .inr byte

/-- The `comma_separated` local of the ascii loop. -/
def ascii_comma_separated (byte : Nat) : AsciiLastValue → Bool
  | some (.inl _) => if ascii_printable byte then false else true
  | some (.inr _) => true
  | none => if ascii_printable byte then true else false

/-- The `char_line_width` local of the ascii loop, comma included. -/
def ascii_char_line_width (byte : Nat) (last_value : AsciiLastValue) : Nat :=
  let base :=
    if ascii_printable byte then
      (match last_value with
       | some (.inl _) => 0
       | _ => 2) + 1
    else (get_byte_representation byte).length
  if ascii_comma_separated byte last_value then base + 1 else base

/-- The `force_new_line` local of the ascii loop: a NUL byte following a
non-NUL predecessor. -/
def ascii_force_new_line (byte : Nat) (last_value : AsciiLastValue) : Bool :=
  ascii_last_value_nonzero last_value &&
    (if ascii_printable byte then false else byte == 0)

/-- The byte loop of `disassembly._process_block_as_ascii`, walking the
block's bytes.  `bytes_consumed`/`bytes_consumed0` and the accumulated
range list mirror the source variables; the final non-empty partial range
is flushed when the bytes run out. -/
def ascii_walk : List Nat → Nat → Nat → List (Nat × Nat) → Nat → AsciiLastValue →
    List (Nat × Nat)
  | [], bytes_consumed, bytes_consumed0, block_line_data, _, _ =>
    if bytes_consumed ≠ bytes_consumed0 then
      block_line_data ++ [(bytes_consumed0, bytes_consumed - bytes_consumed0)]
    else block_line_data
  | byte :: rest, bytes_consumed, bytes_consumed0, block_line_data, line_width, last_value =>
    let char_line_width := ascii_char_line_width byte last_value
    let bytes_consumed := bytes_consumed + 1
    if line_width + char_line_width > 40 || ascii_force_new_line byte last_value then
      ascii_walk rest bytes_consumed bytes_consumed
        (block_line_data ++ [(bytes_consumed0, bytes_consumed - bytes_consumed0)])
        char_line_width none
    else
      ascii_walk rest bytes_consumed bytes_consumed0 block_line_data
        (line_width + char_line_width) (some (ascii_value byte))

/-- `disassembly._process_block_as_ascii`, returning the block with its
recomputed ASCII `line_data`.  The source reads
`data[data_offset_start + bytes_consumed]` for `bytes_consumed` up to
`block.length`; the corresponding byte window is extracted up front (in
well-formed states the segment data covers the block, so the window has
exactly `block.length` bytes). -/
def process_block_as_ascii (pd : ProgramData) (block : SegmentBlock) : SegmentBlock :=
  let data := get_segment_data pd.loader_segments block.segment_id
  let window := (data.drop block.segment_offset).take block.length
  { block with line_data := .ascii (ascii_walk window 0 0 [] 0 none) }

/-! ## Block splitting (disassembly.py) -/

def ERR_SPLIT_EXISTING : Int := -1
def ERR_SPLIT_BOUNDS : Int := -2
def ERR_SPLIT_MIDINSTRUCTION : Int := -3

/-- `disassembly.IS_SPLIT_ERR`. -/
def IS_SPLIT_ERR (value : Int) : Bool :=
  value < 0

/-- Result of the pre-split CODE validation loop of
`disassembly.split_block`: `split_at i` is the entry index at which the line
data is sliced (the loop's `break` index, or the final loop variable when
the loop runs to completion), `mid i` the index of the instruction entry the
split address falls strictly inside. -/
inductive CodeScanResult where
  | split_at (i : Nat)
  | mid (i : Nat)
deriving DecidableEq, Repr

/-- The pre-split CODE validation loop of `disassembly.split_block`.  `i` is
the current entry index, `offsetN` the bytes consumed so far.  An empty
entry list leaves the loop variable unbound in the source (raising at the
subsequent slice); `split_at (i - 1)` at the end models the leaked final
loop index, degenerating to `split_at 0` on that unreachable empty case. -/
def code_split_scan (block_length_reduced : Nat) :
    List SLDEntry → Nat → Nat → CodeScanResult
  | [], i, _ => .split_at (i - 1)
  | .instruction entry :: rest, i, offsetN =>
    if block_length_reduced = offsetN then .split_at i
    else
      let offsetN := offsetN + entry.num_bytes
      if block_length_reduced < offsetN then .mid i
      else code_split_scan block_length_reduced rest (i + 1) offsetN
  | .comment_full_line _ :: rest, i, offsetN =>
    if block_length_reduced = offsetN then .split_at i
    else code_split_scan block_length_reduced rest (i + 1) offsetN
  | .equ_location_relative _ :: rest, i, offsetN =>
    code_split_scan block_length_reduced rest (i + 1) offsetN

/-- The reference partition of `disassembly.split_block`: split the
reference list at the first entry whose in-block address is `≥ address`
(`(addr_in_block, target, code)` tuples are compared on their first
component).  When no entry qualifies the source's leaked loop index makes
the slice point the last index; on an empty list both halves are empty. -/
def split_references (references : List (Nat × Nat × String)) (address : Nat) :
    List (Nat × Nat × String) × List (Nat × Nat × String) :=
  match references.findIdx? (fun entry => decide (entry.1 ≥ address)) with
  | some i => (references.take i, references.drop i)
  | none =>
    (references.take (references.length - 1), references.drop (references.length - 1))

/-- The kept half of a CODE block's reference partition (`None` stays
`None`). -/
def split_refs_kept : Option (List (Nat × Nat × String)) → Nat →
    Option (List (Nat × Nat × String))
  | some references, address => some (split_references references address).1
  | none, _ => none

/-- The moved half of a CODE block's reference partition. -/
def split_refs_moved : Option (List (Nat × Nat × String)) → Nat →
    Option (List (Nat × Nat × String))
  | some references, address => some (split_references references address).2
  | none, _ => none

/-- Rebase the block offsets of the entries moved into the new block
(`entry - split_offset` in the source; it also rebases lazily-stored integer
instruction entries, which this embedding keeps in decoded form). -/
def rebase_split_entries (split_offset : Nat) (entries : List SLDEntry) : List SLDEntry :=
  entries.map (fun e =>
    match e with
    | .equ_location_relative offset => .equ_location_relative (offset - split_offset)
    | other => other)

/-- `disassembly.split_block`.  The result mirrors the source's
`(block-or-new-block, index-or-error)` pair, with the updated program state
threaded through; `none` in the middle component models the raise on an
empty block list. -/
def split_block (pd : ProgramData) (address : Nat) (own_midinstruction : Bool) :
    ProgramData × Option SegmentBlock × Int :=
  match lookup_block_by_address pd address with
  | (none, block_idx) => (pd, none, block_idx)
  | (some block, block_idxI) =>
    if block.address = address then (pd, some block, ERR_SPLIT_EXISTING)
    else
      let segments := pd.loader_segments
      let segment_address := get_segment_address segments block.segment_id
      let segment_length := get_segment_length segments block.segment_id
      if address < segment_address ∨ address ≥ segment_address + segment_length then
        (pd, some block, ERR_SPLIT_BOUNDS)
      else
        let block_idx := block_idxI.toNat
        let block_data_type := get_block_data_type block
        let split_offset := address - block.address
        let excess_length := block.length - split_offset
        let block_length_reduced := block.length - excess_length
        if block_data_type = DATA_TYPE_CODE then
          match code_split_scan block_length_reduced (codeEntries block.line_data) 0 0 with
          | .mid i =>
            if own_midinstruction then
              let pd :=
                { pd with blocks := listModify pd.blocks block_idx (fun b =>
                    { b with line_data := .code (listInsert (codeEntries b.line_data) (i + 1)
                        (.equ_location_relative split_offset)) }) }
              let pd := clear_block_line_count pd block_idx
              (pd, pyget pd.blocks ((block_idx : Int)), ERR_SPLIT_MIDINSTRUCTION)
            else (pd, some block, ERR_SPLIT_MIDINSTRUCTION)
          | .split_at i =>
            let entries := codeEntries block.line_data
            let block_line_data := entries.take i
            let split_block_line_data := rebase_split_entries split_offset (entries.drop i)
            let old_references := split_refs_kept block.references address
            let new_block_references := split_refs_moved block.references address
            let block2 : SegmentBlock :=
              { block with
                length := block_length_reduced
                line_data := .code block_line_data
                references := old_references }
            let new_block : SegmentBlock :=
              { segment_id := block.segment_id
                segment_offset := block.segment_offset + block_length_reduced
                address := block.address + block_length_reduced
                length := excess_length
                flags := block.flags &&& BLOCK_SPLIT_BITMASK
                line_data := .code split_block_line_data
                line_count := 0
                references := new_block_references
                old_data_type := 0 }
            let pd := { pd with blocks := listSet pd.blocks block_idx block2 }
            let pd := insert_block pd (block_idx + 1) new_block
            let pd := clear_block_line_count pd block_idx
            (pd, some new_block, ((block_idx : Int) + 1))
        else
          let block2 : SegmentBlock := { block with length := block_length_reduced }
          let new_block : SegmentBlock :=
            { segment_id := block.segment_id
              segment_offset := block.segment_offset + block_length_reduced
              address := block.address + block_length_reduced
              length := excess_length
              flags := block.flags &&& BLOCK_SPLIT_BITMASK
              line_data := .noneValue
              line_count := 0
              references := none
              old_data_type := 0 }
          let block2 :=
            if block_data_type = DATA_TYPE_ASCII then process_block_as_ascii pd block2
            else block2
          let new_block :=
            if block_data_type = DATA_TYPE_ASCII then process_block_as_ascii pd new_block
            else new_block
          let pd := { pd with blocks := listSet pd.blocks block_idx block2 }
          let pd := insert_block pd (block_idx + 1) new_block
          let pd := clear_block_line_count pd block_idx
          (pd, some new_block, ((block_idx : Int) + 1))

/-! ## Pending-symbol labeling (disassembly.py, `_process_address_as_code`) -/

/-- The label-letter dictionary of `_process_address_as_code`'s labeling
loop (`"?"` models the `KeyError` on an impossible data type). -/
def data_type_label_char (data_type : Nat) : String :=
  if data_type = DATA_TYPE_CODE then "C"
  else if data_type = DATA_TYPE_ASCII then "A"
  else if data_type = DATA_TYPE_BYTE then "B"
  else if data_type = DATA_TYPE_WORD then "W"
  else if data_type = DATA_TYPE_LONGWORD then "L"
  else "?"

/-- One iteration of the pending-symbol labeling loop at the end of
`disassembly._process_address_as_code` (lines 1264-1281 of the source). -/
def process_pending_symbol_address (pd : ProgramData) (address : Nat) : ProgramData :=
  if (dictGet pd.symbols_by_address address).isSome then pd
  else
    match lookup_block_by_address pd address with
    | (none, _) => pd
    | (some block, _) =>
      if block.address ≠ address then
        match split_block pd address true with
        | (pd, new_block, result_code) =>
          if IS_SPLIT_ERR result_code then
            if result_code = ERR_SPLIT_BOUNDS then
              insert_symbol pd address ("lbZ" ++ hex6 address)
            else if result_code = ERR_SPLIT_MIDINSTRUCTION then
              insert_symbol pd address ("SYM" ++ hex6 address)
            else pd
          else
            match new_block with
            | some nb =>
              insert_symbol pd address
                ("lb" ++ data_type_label_char (get_block_data_type nb) ++ hex6 address)
            | none => pd
      else
        insert_symbol pd address
          ("lb" ++ data_type_label_char (get_block_data_type block) ++ hex6 address)

/-- The full pending-symbol labeling loop over a worklist of addresses. -/
def process_pending_symbol_addresses (pd : ProgramData) (pending : List Nat) : ProgramData :=
  pending.foldl process_pending_symbol_address pd

/-! ## Block-store invariants (spec section 3) -/

/-- A block lies inside its segment: valid segment id, flat address
consistent with the segment base and the block's segment offset, and the
block not crossing the segment's end. -/
def block_in_segment (segments : List Segment) (b : SegmentBlock) : Bool :=
  decide (b.segment_id < segments.length) &&
  (b.address == get_segment_address segments b.segment_id + b.segment_offset) &&
  decide (b.segment_offset + b.length ≤ get_segment_length segments b.segment_id)

/-- Adjacent-pair condition of the block ordering: each block ends at or
before the next block's address, with equality whenever both blocks live in
the same segment. -/
def chain_pair (b1 b2 : SegmentBlock) : Bool :=
  decide (b1.address + b1.length ≤ b2.address) &&
    (b1.segment_id != b2.segment_id || b1.address + b1.length == b2.address)

/-- Consecutive blocks are ordered and gap-free. -/
def blocks_chain_ok : List SegmentBlock → Bool
  | [] => true
  | [_] => true
  | b1 :: b2 :: rest => chain_pair b1 b2 && blocks_chain_ok (b2 :: rest)

/-- The block-store partition invariants: the parallel address array
mirrors the block list, every block has positive length, consecutive blocks
are ordered and gap-free within a segment, and no block crosses a segment
boundary. -/
def store_invariants (pd : ProgramData) : Bool :=
  (pd.block_addresses == pd.blocks.map (fun b => b.address)) &&
  pd.blocks.all (fun b => decide (0 < b.length)) &&
  blocks_chain_ok pd.blocks &&
  pd.blocks.all (block_in_segment pd.loader_segments)

/-- The line-number index is fully recalculated: no dirty cursor, and the
stored first-line numbers are the cumulative sums of the block line
counts. -/
def line_index_clean (pd : ProgramData) : Bool :=
  (pd.block_line0s_dirtyidx == none) &&
  (pd.block_line0s == cumulLine0s pd pd.blocks 0)

/-- Spec invariant 8: every cached `line_count` is `0` (stale) or agrees
with the line computer. -/
def line_counts_valid (pd : ProgramData) : Bool :=
  pd.blocks.all (fun b => b.line_count == 0 || b.line_count == get_block_line_count pd b)

/-- Total instruction bytes of a CODE entry list (spec invariant 4 sums
these to the block length). -/
def instr_bytes : List SLDEntry → Nat
  | [] => 0
  | .instruction m :: rest => m.num_bytes + instr_bytes rest
  | _ :: rest => instr_bytes rest

/-- Every instruction entry decodes to at least one byte. -/
def instrs_positive : List SLDEntry → Bool
  | [] => true
  | .instruction m :: rest => decide (0 < m.num_bytes) && instrs_positive rest
  | _ :: rest => instrs_positive rest

/-- ASCII ranges are contiguous from a given offset with positive lengths
(spec invariant 5 phrased positionally). -/
def ranges_contiguous : Nat → List (Nat × Nat) → Bool
  | _, [] => true
  | start, (byte_offset, byte_length) :: rest =>
    (byte_offset == start) && decide (0 < byte_length) &&
      ranges_contiguous (start + byte_length) rest

/-- Sum of the byte lengths of ASCII ranges. -/
def ranges_length_sum : List (Nat × Nat) → Nat
  | [] => 0
  | (_, byte_length) :: rest => byte_length + ranges_length_sum rest

/-- Total bytes covered by a size decomposition (`num_bytes * size_count`
summed over the entries of `get_data_type_sizes`). -/
def sizes_byte_sum : List (String × Nat × Nat × Nat) → Nat
  | [] => 0
  | (_, num_bytes, size_count, _) :: rest => num_bytes * size_count + sizes_byte_sum rest

/-- Remainder left by the greedy width chain: what is still unconsumed
after dividing by each width in turn. -/
def width_chain_rem : List (String × Nat) → Nat → Nat
  | [], u => u
  | (_, num_bytes) :: rest, u => width_chain_rem rest (u % num_bytes)

/-- Sum of the (cached) line counts of a list of blocks, the quantity the
line-number index accumulates. -/
def blocks_line_count_sum (pd : ProgramData) : List SegmentBlock → Nat
  | [] => 0
  | b :: rest => get_block_line_count_cached pd b + blocks_line_count_sum pd rest

/-! ## Concrete example states used by the witnesses -/

/-- A one-segment program with a single fully decoded two-instruction CODE
block (a 4-byte MOVE then a 4-byte RTS). -/
def examplePdCode : ProgramData :=
  { blocks := [
      { segment_id := 0, segment_offset := 0, address := 0, length := 8,
        flags := DATA_TYPE_CODE,
        line_data := .code [.instruction ⟨4, "MOVE"⟩, .instruction ⟨4, "RTS"⟩],
        line_count := 0, references := none, old_data_type := 0 }]
    block_addresses := [0]
    block_line0s := [0]
    block_line0s_dirtyidx := none
    post_segment_addresses := []
    address_ranges := [(0, 7, [0])]
    symbols_by_address := []
    loader_segments := [{ address := 0, length := 8, data := List.replicate 8 0 }]
    loader_has_segment_headers := false
    dis_is_final_instruction_func := fun _ => false }

/-- A one-segment program with a single 6-byte LONGWORD data block. -/
def examplePdLongword : ProgramData :=
  { blocks := [
      { segment_id := 0, segment_offset := 0, address := 0, length := 6,
        flags := DATA_TYPE_LONGWORD,
        line_data := .noneValue,
        line_count := 0, references := none, old_data_type := 0 }]
    block_addresses := [0]
    block_line0s := [0]
    block_line0s_dirtyidx := none
    post_segment_addresses := []
    address_ranges := [(0, 5, [0])]
    symbols_by_address := []
    loader_segments := [{ address := 0, length := 6, data := List.replicate 6 0 }]
    loader_has_segment_headers := false
    dis_is_final_instruction_func := fun _ => false }

/-- The BSS-tail scenario of the spec: a segment with 16 file-backed bytes
and a 16-byte allocated tail, aggregated as LONGWORD blocks. -/
def examplePdBssTail : ProgramData :=
  { blocks := [
      { segment_id := 0, segment_offset := 0, address := 0, length := 16,
        flags := DATA_TYPE_LONGWORD,
        line_data := .noneValue,
        line_count := 0, references := none, old_data_type := 0 },
      { segment_id := 0, segment_offset := 16, address := 16, length := 16,
        flags := DATA_TYPE_LONGWORD + BLOCK_FLAG_ALLOC,
        line_data := .noneValue,
        line_count := 0, references := none, old_data_type := 0 }]
    block_addresses := [0, 16]
    block_line0s := [0, 4]
    block_line0s_dirtyidx := none
    post_segment_addresses := []
    address_ranges := [(0, 31, [0])]
    symbols_by_address := []
    loader_segments := [{ address := 0, length := 32, data := List.replicate 16 0 }]
    loader_has_segment_headers := false
    dis_is_final_instruction_func := fun _ => false }

/-- Two segments separated by an address gap, with the address-range table
built by `onload_make_address_ranges`: segment 0 covers `[0, 9]`, segment 1
covers `[20, 29]`. -/
def examplePdTwoRanges : ProgramData :=
  let segments : List Segment := [
    { address := 0, length := 10, data := List.replicate 10 0 },
    { address := 20, length := 10, data := List.replicate 10 0 }]
  onload_make_address_ranges
    { blocks := [
        { segment_id := 0, segment_offset := 0, address := 0, length := 10,
          flags := DATA_TYPE_LONGWORD, line_data := .noneValue,
          line_count := 0, references := none, old_data_type := 0 },
        { segment_id := 1, segment_offset := 0, address := 20, length := 10,
          flags := DATA_TYPE_LONGWORD, line_data := .noneValue,
          line_count := 0, references := none, old_data_type := 0 }]
      block_addresses := [0, 20]
      block_line0s := [0, 3]
      block_line0s_dirtyidx := none
      post_segment_addresses := []
      address_ranges := []
      symbols_by_address := []
      loader_segments := segments
      loader_has_segment_headers := false
      dis_is_final_instruction_func := fun _ => false }

/-- A one-segment program whose data holds the two NUL-terminated strings
of the spec's retype-to-ASCII scenario. -/
def examplePdHelloWorld : ProgramData :=
  { blocks := [
      { segment_id := 0, segment_offset := 0, address := 0, length := 12,
        flags := DATA_TYPE_LONGWORD,
        line_data := .noneValue,
        line_count := 0, references := none, old_data_type := 0 }]
    block_addresses := [0]
    block_line0s := [0]
    block_line0s_dirtyidx := none
    post_segment_addresses := []
    address_ranges := [(0, 11, [0])]
    symbols_by_address := []
    loader_segments :=
      [{ address := 0, length := 12,
         data := [0x48, 0x65, 0x6C, 0x6C, 0x6F, 0x00, 0x57, 0x6F, 0x72, 0x6C, 0x64, 0x00] }]
    loader_has_segment_headers := false
    dis_is_final_instruction_func := fun _ => false }

/-- Two data blocks with distinct addresses, for exercising the
negative-index lookups. -/
def examplePdTwoBlocks : ProgramData :=
  { blocks := [
      { segment_id := 0, segment_offset := 0, address := 10, length := 10,
        flags := DATA_TYPE_LONGWORD, line_data := .noneValue,
        line_count := 0, references := none, old_data_type := 0 },
      { segment_id := 0, segment_offset := 10, address := 20, length := 10,
        flags := DATA_TYPE_WORD, line_data := .noneValue,
        line_count := 0, references := none, old_data_type := 0 }]
    block_addresses := [10, 20]
    block_line0s := [5, 9]
    block_line0s_dirtyidx := none
    post_segment_addresses := []
    address_ranges := [(10, 29, [0])]
    symbols_by_address := []
    loader_segments := [{ address := 10, length := 20, data := List.replicate 20 0 }]
    loader_has_segment_headers := false
    dis_is_final_instruction_func := fun _ => false }

/-- The single LONGWORD block of `examplePdLongword`, for use as a concrete
split input. -/
def exampleLongwordBlock : SegmentBlock :=
  { segment_id := 0, segment_offset := 0, address := 0, length := 6,
    flags := DATA_TYPE_LONGWORD, line_data := .noneValue,
    line_count := 0, references := none, old_data_type := 0 }

/-- The new (second-half) block produced by splitting `examplePdLongword`
at address 3. -/
def exampleLongwordNewBlock : SegmentBlock :=
  { segment_id := 0, segment_offset := 3, address := 3, length := 3,
    flags := 5, line_data := .noneValue,
    line_count := 0, references := none, old_data_type := 0 }

/-- The single CODE block of `examplePdCode` (a 4-byte MOVE followed by a
4-byte RTS), for use as a concrete round-trip input. -/
def exampleCodeBlock : SegmentBlock :=
  { segment_id := 0, segment_offset := 0, address := 0, length := 8,
    flags := DATA_TYPE_CODE,
    line_data := .code [.instruction ⟨4, "MOVE"⟩, .instruction ⟨4, "RTS"⟩],
    line_count := 0, references := none, old_data_type := 0 }

/-! ## List helper lemmas -/

lemma get?_append_cons (xs : List α) (y : α) (zs : List α) :
    (xs ++ y :: zs).get? xs.length = some y := by
  induction xs with
  | nil => rfl
  | cons x xs ih => simpa using ih

lemma listInsert_append (xs ys : List α) (a : α) :
    listInsert (xs ++ ys) xs.length a = xs ++ a :: ys := by
  unfold listInsert
  rw [List.take_left, List.drop_left]

lemma listModify_append (xs : List α) (y : α) (zs : List α) (f : α → α) :
    listModify (xs ++ y :: zs) xs.length f = xs ++ f y :: zs := by
  unfold listModify
  rw [List.take_left, List.drop_left]

lemma listSet_append (xs : List α) (y : α) (zs : List α) (a : α) :
    listSet (xs ++ y :: zs) xs.length a = xs ++ a :: zs := by
  unfold listSet
  exact listModify_append xs y zs (fun _ => a)

lemma listInsert_append_succ (xs : List α) (y : α) (zs : List α) (a : α) :
    listInsert (xs ++ y :: zs) (xs.length + 1) a = xs ++ y :: a :: zs := by
  have h1 : xs ++ y :: zs = (xs ++ [y]) ++ zs := by simp
  have h2 : xs.length + 1 = (xs ++ [y]).length := by simp
  rw [h1, h2, listInsert_append]
  simp

lemma pyget_nonneg (xs : List α) (i : Nat) :
    pyget xs (i : Int) = xs.get? i := by
  simp [pyget]

lemma pyget_append_cons (xs : List α) (y : α) (zs : List α) :
    pyget (xs ++ y :: zs) ((xs.length : Int)) = some y := by
  rw [pyget_nonneg]
  exact get?_append_cons xs y zs

lemma pyget_neg_one (xs : List α) (h : xs ≠ []) :
    pyget xs (-1) = xs.get? (xs.length - 1) := by
  have hlen : 1 ≤ xs.length := by
    cases xs with
    | nil => exact absurd rfl h
    | cons a l => exact Nat.succ_le_succ (Nat.zero_le _)
  simp [pyget, hlen]

lemma takeWhile_append_length (p : α → Bool) (xs ys : List α)
    (hxs : ∀ x ∈ xs, p x = true)
    (hys : ∀ y, ys.head? = some y → p y = false) :
    ((xs ++ ys).takeWhile p).length = xs.length := by
  induction xs with
  | nil =>
    cases ys with
    | nil => rfl
    | cons y ys =>
      simp only [List.nil_append, List.takeWhile, hys y rfl]
  | cons x xs ih =>
    have hx : p x = true := hxs x (List.mem_cons_self x xs)
    simp only [List.cons_append, List.takeWhile, hx, List.length_cons]
    have := ih (fun z hz => hxs z (List.mem_cons_of_mem x hz))
    simpa using this

/-! ## Greedy numeric decomposition lemmas (for C6) -/

lemma data_type_sizes_walk_byte_sum (alloc : Bool) :
    ∀ (size_types : List (String × Nat)) (u : Nat),
      sizes_byte_sum (data_type_sizes_walk alloc size_types u) +
        width_chain_rem size_types u = u := by
  intro size_types
  induction size_types with
  | nil => intro u; simp [data_type_sizes_walk, sizes_byte_sum, width_chain_rem]
  | cons t rest ih =>
    intro u
    obtain ⟨size_char, num_bytes⟩ := t
    by_cases hc : u / num_bytes = 0
    · have hmod : u % num_bytes = u := by
        rcases Nat.eq_zero_or_pos num_bytes with h0 | hpos
        · simp [h0]
        · exact Nat.mod_eq_of_lt (Nat.div_eq_zero_iff hpos |>.mp hc)
      simp only [data_type_sizes_walk, hc, if_pos rfl, width_chain_rem, hmod]
      exact ih u
    · have hcomm : u / num_bytes * num_bytes = num_bytes * (u / num_bytes) :=
        Nat.mul_comm _ _
      have hrem : u - u / num_bytes * num_bytes = u % num_bytes := by
        rw [hcomm]
        have := Nat.div_add_mod u num_bytes
        omega
      simp only [data_type_sizes_walk, hc, if_neg hc, sizes_byte_sum, width_chain_rem, hrem]
      have := ih (u % num_bytes)
      have hdm := Nat.div_add_mod u num_bytes
      omega

lemma data_type_sizes_walk_entries (alloc : Bool) :
    ∀ (size_types : List (String × Nat)) (u : Nat) (e : String × Nat × Nat × Nat),
      e ∈ data_type_sizes_walk alloc size_types u →
      0 < e.2.2.1 ∧ e.2.2.2 = (if alloc then 1 else e.2.2.1) := by
  intro size_types
  induction size_types with
  | nil => intro u e he; simp [data_type_sizes_walk] at he
  | cons t rest ih =>
    intro u e he
    obtain ⟨size_char, num_bytes⟩ := t
    by_cases hc : u / num_bytes = 0
    · simp only [data_type_sizes_walk, hc, if_pos rfl] at he
      exact ih u e he
    · simp only [data_type_sizes_walk, if_neg hc, List.mem_cons] at he
      rcases he with he | he
      · subst he
        exact ⟨Nat.pos_of_ne_zero hc, rfl⟩
      · exact ih _ e he

/-- Claim C6: the line shape of numeric blocks.  The widths are walked
greedily in descending order (4, 2, 1 for LONGWORD; 2, 1 for WORD; 1 for
BYTE), the consumed bytes of a numeric block's decomposition sum exactly to
the block length, every used width has a positive unit count, and each
entry contributes `size_count` lines for a non-ALLOC block but exactly one
line for an ALLOC block.  Concretely, the 16-byte ALLOC LONGWORD BSS-tail
block of the spec scenario has a total line count of 1, and a 7-byte
LONGWORD block contributes 3 body lines whether ALLOC or not. -/
theorem C6_numeric_block_lines (block : SegmentBlock)
    (hnum : get_block_data_type block ∈ NUMERIC_DATA_TYPES) :
    (get_data_type_sizes block =
      data_type_sizes_walk (block.flags &&& BLOCK_FLAG_ALLOC != 0)
        (if get_block_data_type block = DATA_TYPE_LONGWORD then [("L", 4), ("W", 2), ("B", 1)]
         else if get_block_data_type block = DATA_TYPE_WORD then [("W", 2), ("B", 1)]
         else [("B", 1)]) block.length) ∧
    sizes_byte_sum (get_data_type_sizes block) = block.length ∧
    (∀ e ∈ get_data_type_sizes block,
      0 < e.2.2.1 ∧
        e.2.2.2 = (if block.flags &&& BLOCK_FLAG_ALLOC != 0 then 1 else e.2.2.1)) ∧
    (examplePdBssTail.blocks.get? 1).map (get_block_line_count examplePdBssTail) = some 1 ∧
    sizes_line_count (get_data_type_sizes
      { flags := DATA_TYPE_LONGWORD, length := 7 : SegmentBlock }) = 3 ∧
    sizes_line_count (get_data_type_sizes
      { flags := DATA_TYPE_LONGWORD + BLOCK_FLAG_ALLOC, length := 7 : SegmentBlock }) = 3 := by
  have hshape : get_data_type_sizes block =
      data_type_sizes_walk (block.flags &&& BLOCK_FLAG_ALLOC != 0)
        (if get_block_data_type block = DATA_TYPE_LONGWORD then [("L", 4), ("W", 2), ("B", 1)]
         else if get_block_data_type block = DATA_TYPE_WORD then [("W", 2), ("B", 1)]
         else [("B", 1)]) block.length := by
    simp only [NUMERIC_DATA_TYPES, List.mem_cons, List.mem_singleton,
      List.not_mem_nil, or_false] at hnum
    unfold get_data_type_sizes
    rcases hnum with h | h | h <;> rw [h] <;>
      norm_num [DATA_TYPE_LONGWORD, DATA_TYPE_WORD, DATA_TYPE_BYTE]
  refine ⟨hshape, ?_, ?_, by decide, by decide, by decide⟩
  · rw [hshape]
    have := data_type_sizes_walk_byte_sum (block.flags &&& BLOCK_FLAG_ALLOC != 0)
      (if get_block_data_type block = DATA_TYPE_LONGWORD then [("L", 4), ("W", 2), ("B", 1)]
       else if get_block_data_type block = DATA_TYPE_WORD then [("W", 2), ("B", 1)]
       else [("B", 1)]) block.length
    have hrem : width_chain_rem
        (if get_block_data_type block = DATA_TYPE_LONGWORD then [("L", 4), ("W", 2), ("B", 1)]
         else if get_block_data_type block = DATA_TYPE_WORD then [("W", 2), ("B", 1)]
         else [("B", 1)]) block.length = 0 := by
      split <;> try split
      all_goals simp [width_chain_rem, Nat.mod_one]
    omega
  · intro e he
    rw [hshape] at he
    exact data_type_sizes_walk_entries _ _ _ e he

/-- Witness for C6 at a concrete LONGWORD block. -/
theorem C6_numeric_block_lines_witness :
    get_block_data_type { flags := DATA_TYPE_LONGWORD, length := 7 : SegmentBlock }
        ∈ NUMERIC_DATA_TYPES ∧
      sizes_byte_sum (get_data_type_sizes
        { flags := DATA_TYPE_LONGWORD, length := 7 : SegmentBlock }) = 7 :=
  ⟨by decide,
    (C6_numeric_block_lines { flags := DATA_TYPE_LONGWORD, length := 7 } (by decide)).2.1⟩

/-! ## Ascii shaper lemmas (for C9) -/

lemma ascii_walk_acc (bytes : List Nat) :
    ∀ (c c0 : Nat) (acc : List (Nat × Nat)) (w : Nat) (lv : AsciiLastValue),
      ascii_walk bytes c c0 acc w lv = acc ++ ascii_walk bytes c c0 [] w lv := by
  induction bytes with
  | nil =>
    intro c c0 acc w lv
    simp only [ascii_walk]
    split <;> simp
  | cons byte rest ih =>
    intro c c0 acc w lv
    simp only [ascii_walk]
    split
    · rw [ih _ _ (acc ++ [(c0, c + 1 - c0)]), ih _ _ ([] ++ [(c0, c + 1 - c0)])]
      simp
    · exact ih _ _ acc _ _

lemma ascii_walk_partition (bytes : List Nat) :
    ∀ (c c0 w : Nat) (lv : AsciiLastValue), c0 ≤ c →
      ranges_contiguous c0 (ascii_walk bytes c c0 [] w lv) = true ∧
      ranges_length_sum (ascii_walk bytes c c0 [] w lv) + c0 = c + bytes.length := by
  induction bytes with
  | nil =>
    intro c c0 w lv hle
    simp only [ascii_walk]
    by_cases h : c = c0
    · simp [h, ranges_contiguous, ranges_length_sum]
    · simp only [ne_eq, h, not_false_iff, if_pos, List.nil_append]
      refine ⟨?_, ?_⟩
      · simp only [ranges_contiguous, beq_self_eq_true, Bool.true_and]
        have hpos : 0 < c - c0 := by omega
        simp [hpos, ranges_contiguous]
      · simp only [ranges_length_sum, List.length_nil]
        omega
  | cons byte rest ih =>
    intro c c0 w lv hle
    simp only [ascii_walk]
    split
    · rw [ascii_walk_acc]
      have hIH := ih (c + 1) (c + 1) (ascii_char_line_width byte lv) none (Nat.le_refl _)
      refine ⟨?_, ?_⟩
      · simp only [List.nil_append, ranges_contiguous, beq_self_eq_true, Bool.true_and]
        have hco : c0 + (c + 1 - c0) = c + 1 := by omega
        have hpos : 0 < c + 1 - c0 := by omega
        simp [hpos, hco, hIH.1]
      · simp only [List.append_eq, List.nil_append, ranges_length_sum]
        have := hIH.2
        simp only [List.length_cons]
        omega
    · have hIH := ih (c + 1) c0 (w + ascii_char_line_width byte lv)
        (some (ascii_value byte)) (by omega)
      refine ⟨hIH.1, ?_⟩
      have := hIH.2
      simp only [List.length_cons]
      omega

/-- Claim C9: `_process_block_as_ascii` partitions a block's bytes into
consecutive `(byte_offset, byte_length)` ranges whose offsets are
contiguous from 0 and whose lengths sum to `block.length` (new ranges being
started at the width limit or at a NUL byte following a non-NUL byte, with
the final partial range flushed); on the 12 bytes
`48 65 6C 6C 6F 00 57 6F 72 6C 64 00` it produces exactly the ranges
`(0, 6)` and `(6, 6)`. -/
theorem C9_ascii_partition (pd : ProgramData) (block : SegmentBlock)
    (hdata : block.segment_offset + block.length ≤
      (get_segment_data pd.loader_segments block.segment_id).length) :
    (ranges_contiguous 0 (asciiRanges (process_block_as_ascii pd block).line_data) = true ∧
      ranges_length_sum (asciiRanges (process_block_as_ascii pd block).line_data) =
        block.length) ∧
    (examplePdHelloWorld.blocks.get? 0).map
        (fun b => (process_block_as_ascii examplePdHelloWorld b).line_data) =
      some (.ascii [(0, 6), (6, 6)]) := by
  constructor
  · unfold process_block_as_ascii
    simp only [asciiRanges]
    set data := get_segment_data pd.loader_segments block.segment_id with hdataEq
    have hwin : ((data.drop block.segment_offset).take block.length).length = block.length := by
      simp only [List.length_take, List.length_drop]
      omega
    have := ascii_walk_partition ((data.drop block.segment_offset).take block.length)
      0 0 0 none (Nat.le_refl 0)
    refine ⟨this.1, ?_⟩
    have h2 := this.2
    rw [hwin] at h2
    omega
  · decide

/-- Witness for C9 at the retype-to-ASCII scenario block. -/
theorem C9_ascii_partition_witness :
    ({ segment_id := 0, segment_offset := 0, address := 0, length := 12,
       flags := DATA_TYPE_LONGWORD, line_data := .noneValue, line_count := 0,
       references := none, old_data_type := 0 : SegmentBlock }.segment_offset + 12 ≤
      (get_segment_data examplePdHelloWorld.loader_segments 0).length) ∧
    ranges_length_sum (asciiRanges (process_block_as_ascii examplePdHelloWorld
      { segment_id := 0, segment_offset := 0, address := 0, length := 12,
        flags := DATA_TYPE_LONGWORD, line_data := .noneValue, line_count := 0,
        references := none, old_data_type := 0 }).line_data) = 12 :=
  ⟨by decide,
    (C9_ascii_partition examplePdHelloWorld
      { segment_id := 0, segment_offset := 0, address := 0, length := 12,
        flags := DATA_TYPE_LONGWORD, line_data := .noneValue, line_count := 0,
        references := none, old_data_type := 0 } (by decide)).1.2⟩

/-! ## Negative-index lookup (for C10) -/

lemma get?_length_sub_one (xs : List α) (h : xs ≠ []) :
    xs.get? (xs.length - 1) = some (xs.getLast h) := by
  have hlt : xs.length - 1 < xs.length := by
    cases xs with
    | nil => exact absurd rfl h
    | cons a l => simp
  rw [List.getLast_eq_get]
  exact List.get?_eq_get hlt

/-- Claim C10: for an address below the first block's address,
`lookup_block_by_address` does not fail but returns the LAST block of the
block list together with block index `-1` (bisection yields insertion point
0, and Python's negative indexing wraps `blocks[-1]` to the last element);
`lookup_block_by_line_count` behaves the same way for a line number below
the first block's first line number. -/
theorem C10_lookup_below_first (pd : ProgramData) (hne : pd.blocks ≠ [])
    (a0 : Nat) (ha : pd.block_addresses.head? = some a0)
    (l0 : Nat) (hl : pd.block_line0s.head? = some l0)
    (hclean : pd.block_line0s_dirtyidx = none)
    (key1 key2 : Nat) (hk1 : key1 < a0) (hk2 : key2 < l0) :
    lookup_block_by_address pd key1 = (some (pd.blocks.getLast hne), -1) ∧
    lookup_block_by_line_count pd key2 = (some (pd.blocks.getLast hne), -1) := by
  have hpy : pyget pd.blocks (-1) = some (pd.blocks.getLast hne) := by
    rw [pyget_neg_one pd.blocks hne]
    exact get?_length_sub_one pd.blocks hne
  constructor
  · unfold lookup_block_by_address bisect_right
    cases haddr : pd.block_addresses with
    | nil => rw [haddr] at ha; simp at ha
    | cons x rest =>
      rw [haddr] at ha
      simp only [List.head?] at ha
      injection ha with ha
      have hfalse : decide (x ≤ key1) = false := by
        simp only [decide_eq_false_iff_not]
        omega
      simp only [List.takeWhile_cons, hfalse, Bool.false_eq_true, if_false,
        List.length_nil, Nat.cast_zero, zero_sub]
      rw [hpy]
  · unfold lookup_block_by_line_count bisect_right
    have hrec : recalculate_line_count_index pd = pd := by
      unfold recalculate_line_count_index
      rw [hclean]
    rw [hrec]
    cases hline : pd.block_line0s with
    | nil => rw [hline] at hl; simp at hl
    | cons x rest =>
      rw [hline] at hl
      simp only [List.head?] at hl
      injection hl with hl
      have hfalse : decide (x ≤ key2) = false := by
        simp only [decide_eq_false_iff_not]
        omega
      simp only [hline, List.takeWhile_cons, hfalse, Bool.false_eq_true, if_false,
        List.length_nil, Nat.cast_zero, zero_sub]
      rw [hpy]

/-- Witness for C10: a two-block store, an address and a line number below
the first block. -/
theorem C10_lookup_below_first_witness :
    lookup_block_by_address examplePdTwoBlocks 5 =
      (some (examplePdTwoBlocks.blocks.getLast (by decide)), -1) ∧
    lookup_block_by_line_count examplePdTwoBlocks 3 =
      (some (examplePdTwoBlocks.blocks.getLast (by decide)), -1) :=
  C10_lookup_below_first examplePdTwoBlocks (by decide) 10 (by decide) 5 (by decide)
    rfl 5 3 (by decide) (by decide)

/-- Claim C5, settled against the code: `split_block`'s own docstring says
it "should preserve line count", but splitting the 6-byte LONGWORD block of
`examplePdLongword` at its interior address 3 succeeds (result index 1) and
turns one 2-line block (`DC.L` + `DC.W`) into two 2-line blocks
(`DC.W` + `DC.B` each) — the resulting line counts sum to 4, not 2. -/
theorem C5_split_block_line_count_not_preserved :
    get_block_line_count examplePdLongword
        { segment_id := 0, segment_offset := 0, address := 0, length := 6,
          flags := DATA_TYPE_LONGWORD, line_data := .noneValue, line_count := 0,
          references := none, old_data_type := 0 } = 2 ∧
    (split_block examplePdLongword 3 false).2.2 = 1 ∧
    ((split_block examplePdLongword 3 false).1.blocks.map
        (fun b => get_block_line_count (split_block examplePdLongword 3 false).1 b)) =
      [2, 2] := by
  decide

/-! ## Sorting and dict lemmas (for C2) -/

lemma orderedInsertNat_perm (a : Nat) (l : List Nat) :
    (orderedInsertNat a l).Perm (a :: l) := by
  induction l with
  | nil => exact List.Perm.refl _
  | cons b t ih =>
    unfold orderedInsertNat
    by_cases h : a ≤ b
    · simp [h]
    · simp only [if_neg h]
      exact (List.Perm.cons b ih).trans (List.Perm.swap a b t)

lemma sortNat_perm (l : List Nat) : (sortNat l).Perm l := by
  induction l with
  | nil => exact List.Perm.refl _
  | cons a t ih =>
    unfold sortNat
    exact (orderedInsertNat_perm a (sortNat t)).trans (List.Perm.cons a ih)

lemma sortedNat_cons_orderedInsert (a : Nat) :
    ∀ (l : List Nat) (b : Nat), sortedNat (b :: l) = true → b ≤ a →
      sortedNat (b :: orderedInsertNat a l) = true := by
  intro l
  induction l with
  | nil =>
    intro b _ hba
    simp [orderedInsertNat, sortedNat, hba]
  | cons c t ih =>
    intro b hs hba
    simp only [sortedNat, Bool.and_eq_true, decide_eq_true_eq] at hs
    unfold orderedInsertNat
    by_cases h : a ≤ c
    · simp only [if_pos h, sortedNat, Bool.and_eq_true, decide_eq_true_eq]
      exact ⟨hba, h, hs.2⟩
    · simp only [if_neg h, sortedNat, Bool.and_eq_true, decide_eq_true_eq]
      refine ⟨hs.1, ?_⟩
      have := ih c hs.2 (by omega)
      simpa [sortedNat] using this

lemma sortedNat_orderedInsert (a : Nat) (l : List Nat)
    (hs : sortedNat l = true) : sortedNat (orderedInsertNat a l) = true := by
  cases l with
  | nil => simp [orderedInsertNat, sortedNat]
  | cons b t =>
    unfold orderedInsertNat
    by_cases h : a ≤ b
    · simp only [if_pos h, sortedNat, Bool.and_eq_true, decide_eq_true_eq]
      exact ⟨h, hs⟩
    · simp only [if_neg h]
      exact sortedNat_cons_orderedInsert a t b hs (by omega)

lemma sortNat_sorted (l : List Nat) : sortedNat (sortNat l) = true := by
  induction l with
  | nil => rfl
  | cons a t ih => exact sortedNat_orderedInsert a (sortNat t) ih

lemma dictGet_dictSet_self (d : List (Nat × α)) (k : Nat) (v : α) :
    dictGet (dictSet d k v) k = some v := by
  unfold dictSet
  by_cases h : (d.find? (fun p => p.1 == k)).isSome
  · simp only [h, if_true]
    induction d with
    | nil => simp at h
    | cons p rest ih =>
      by_cases hk : p.1 == k
      · simp [dictGet, List.find?, hk]
      · simp only [List.find?, hk, Bool.false_eq_true] at h
        simp only [List.map, hk, if_neg, dictGet, List.find?]
        have := ih h
        simpa [dictGet, hk] using this
  · rw [if_neg h]
    have hnone : d.find? (fun p => p.1 == k) = none := by
      cases hf : d.find? (fun p => p.1 == k) with
      | none => rfl
      | some x => rw [hf] at h; simp at h
    unfold dictGet
    rw [List.find?_append, hnone]
    simp [List.find?]

/-! ## Known-address checking theorems (C2) -/

lemma check_known_walk_below (address : Nat) :
    ∀ (rs : List (Nat × Nat × List Nat)) (pre : List Nat) (n : Nat),
      (∀ r ∈ rs, address < r.1 ∧ r.1 ≤ r.2.1) → address ≤ n →
      ∃ n', check_known_walk address rs pre (some n) = .inr (pre, some n') ∧ address ≤ n' := by
  intro rs
  induction rs with
  | nil =>
    intro pre n _ hle
    exact ⟨n, rfl, hle⟩
  | cons r rest ih =>
    intro pre n hall hle
    obtain ⟨b0, bN, bids⟩ := r
    have hr := hall _ (List.mem_cons_self _ _)
    dsimp only at hr
    simp only [check_known_walk, if_pos hr.1]
    exact ih pre bN (fun x hx => hall x (List.mem_cons_of_mem _ hx)) (by omega)

/-- Claim C2, amended: `check_known_address` consults only the FIRST
address range.  For an address inside the first range it returns `True`
with the state unchanged; for the address exactly one past the first
range's end it returns `True` and registers the address (on first
observation) in `post_segment_addresses` of the highest segment id of that
range, keeping that list sorted and duplicate-free; every other address —
including addresses inside later ranges — yields `False` with the state
unchanged. -/
theorem C2_check_known_address_first_range (pd : ProgramData)
    (a0 aN : Nat) (ids : List Nat) (rest : List (Nat × Nat × List Nat))
    (hranges : pd.address_ranges = (a0, aN, ids) :: rest)
    (h0N : a0 ≤ aN)
    (hids : ids ≠ [])
    (hrest : ∀ r ∈ rest, aN + 1 < r.1 ∧ r.1 ≤ r.2.1)
    (address : Nat) :
    (a0 ≤ address → address ≤ aN →
      check_known_address pd address = some (true, pd)) ∧
    (address = aN + 1 →
      ∀ old, old = (dictGet pd.post_segment_addresses (maxNat ids)).getD [] →
        sortedNat old = true → old.Nodup →
        ∃ pd' l', check_known_address pd address = some (true, pd') ∧
          dictGet pd'.post_segment_addresses (maxNat ids) = some l' ∧
          sortedNat l' = true ∧ l'.Nodup ∧
          (∀ x, x ∈ l' ↔ x ∈ old ∨ x = address)) ∧
    ((address < a0 ∨ aN + 1 < address) →
      check_known_address pd address = some (false, pd)) := by
  refine ⟨?_, ?_, ?_⟩
  · intro hge hle
    unfold check_known_address
    rw [hranges]
    have h1 : ¬ address < a0 := by omega
    have h2 : ¬ address > aN := by omega
    simp only [check_known_walk, if_neg h1, if_neg h2]
  · intro haddr old hold hsorted hnodup
    unfold check_known_address
    rw [hranges]
    have h1 : ¬ address < a0 := by omega
    have h2 : address > aN := by omega
    simp only [check_known_walk, if_neg h1, if_pos h2]
    have hlen : ([] ++ ids).length ≠ 0 := by
      simp only [List.nil_append]
      intro hz
      exact hids (List.eq_nil_of_length_eq_zero hz)
    rw [if_pos haddr, if_pos hlen]
    simp only [List.nil_append]
    cases hget : dictGet pd.post_segment_addresses (maxNat ids) with
    | none =>
      refine ⟨_, [address], rfl, ?_, rfl, by simp, ?_⟩
      · exact dictGet_dictSet_self _ _ _
      · intro x
        rw [hold, hget]
        simp
    | some addresses =>
      have holdeq : old = addresses := by rw [hold, hget]; rfl
      subst holdeq
      dsimp only
      by_cases hmem : address ∈ old
      · rw [if_pos hmem]
        refine ⟨pd, old, rfl, hget, hsorted, hnodup, ?_⟩
        intro x
        constructor
        · exact fun h => Or.inl h
        · rintro (h | rfl)
          · exact h
          · exact hmem
      · rw [if_neg hmem]
        refine ⟨_, sortNat (old ++ [address]), rfl, dictGet_dictSet_self _ _ _,
          sortNat_sorted _, ?_, ?_⟩
        · have hperm := sortNat_perm (old ++ [address])
          refine hperm.nodup_iff.mpr ?_
          rw [List.nodup_append]
          exact ⟨hnodup, List.nodup_singleton _, by simpa using hmem⟩
        · intro x
          rw [(sortNat_perm (old ++ [address])).mem_iff]
          simp
  · intro hcase
    unfold check_known_address
    rw [hranges]
    rcases hcase with hlt | hgt
    · have h1 : address < a0 := hlt
      simp only [check_known_walk, if_pos h1]
      obtain ⟨n', hwalk, hle⟩ := check_known_walk_below address rest [] aN
        (fun r hr => ⟨by have := (hrest r hr).1; omega, (hrest r hr).2⟩) (by omega)
      rw [hwalk]
      dsimp only
      have : ¬ address = n' + 1 := by omega
      rw [if_neg this]
    · have h1 : ¬ address < a0 := by omega
      have h2 : address > aN := by omega
      simp only [check_known_walk, if_neg h1, if_pos h2]
      have : ¬ address = aN + 1 := by omega
      rw [if_neg this]

/-- Counterexample to claim C2 as stated: in a two-range image the address
25 lies inside the second segment's address range, yet
`check_known_address` returns `False` for it (the range loop breaks at the
first range). -/
theorem C2_check_known_address_counterexample :
    examplePdTwoRanges.address_ranges = [(0, 9, [0]), (20, 29, [1])] ∧
    get_segment_address examplePdTwoRanges.loader_segments 1 ≤ 25 ∧
    25 < get_segment_address examplePdTwoRanges.loader_segments 1 +
      get_segment_length examplePdTwoRanges.loader_segments 1 ∧
    (check_known_address examplePdTwoRanges 25).map (fun r => r.1) = some false := by
  decide

/-- Witness for the amended C2 at the one-past-first-range address 10. -/
theorem C2_check_known_address_first_range_witness :
    ∃ pd' l', check_known_address examplePdTwoRanges 10 = some (true, pd') ∧
      dictGet pd'.post_segment_addresses (maxNat [0]) = some l' ∧
      sortedNat l' = true ∧ l'.Nodup ∧
      (∀ x, x ∈ l' ↔ x ∈ ([] : List Nat) ∨ x = 10) :=
  (C2_check_known_address_first_range examplePdTwoRanges 0 9 [0] [(20, 29, [1])]
      (by decide) (by decide) (by decide) (by decide) 10).2.1 rfl [] (by decide)
    (by decide) (by decide)

/-! ## Mid-instruction split (C7) -/

lemma head?_map (f : α → β) (l : List α) : (l.map f).head? = l.head?.map f := by
  cases l <;> rfl

lemma lookup_block_by_address_eq (pd : ProgramData)
    (bs1 : List SegmentBlock) (block : SegmentBlock) (bs2 : List SegmentBlock)
    (address : Nat)
    (hblocks : pd.blocks = bs1 ++ block :: bs2)
    (haddr : pd.block_addresses = pd.blocks.map (fun b => b.address))
    (hbs1 : ∀ b' ∈ bs1, b'.address ≤ address)
    (hblk : block.address ≤ address)
    (hbs2 : ∀ hd, bs2.head? = some hd → address < hd.address) :
    lookup_block_by_address pd address = (some block, (bs1.length : Int)) := by
  unfold lookup_block_by_address bisect_right
  have hsplit : pd.block_addresses =
      (bs1.map (fun b => b.address) ++ [block.address]) ++ bs2.map (fun b => b.address) := by
    rw [haddr, hblocks]
    simp
  have hall : ∀ x ∈ bs1.map (fun b => b.address) ++ [block.address],
      (fun y => decide (y ≤ address)) x = true := by
    intro x hx
    simp only [List.mem_append, List.mem_map, List.mem_singleton] at hx
    rcases hx with ⟨b', hb', rfl⟩ | rfl
    · simpa using hbs1 b' hb'
    · simpa using hblk
  have hhd : ∀ y, (bs2.map (fun b => b.address)).head? = some y →
      (fun y => decide (y ≤ address)) y = false := by
    intro y hy
    rw [head?_map] at hy
    cases hhd2 : bs2.head? with
    | none => rw [hhd2] at hy; simp at hy
    | some hd =>
      rw [hhd2] at hy
      simp only [Option.map] at hy
      injection hy with hy
      subst hy
      simp only [decide_eq_false_iff_not, not_le]
      exact hbs2 hd hhd2
  have htw : ((pd.block_addresses).takeWhile (fun y => decide (y ≤ address))).length =
      bs1.length + 1 := by
    rw [hsplit, takeWhile_append_length _ _ _ hall hhd]
    simp
  simp only [htw]
  have hidx : ((bs1.length + 1 : Nat) : Int) - 1 = (bs1.length : Int) := by push_cast; ring
  rw [hidx]
  rw [hblocks, pyget_append_cons]

lemma code_split_scan_mid_aux :
    ∀ (es1 : List SLDEntry) (m : Match) (es2 : List SLDEntry)
      (i0 offsetN reduced : Nat),
      offsetN + instr_bytes es1 < reduced →
      reduced < offsetN + instr_bytes es1 + m.num_bytes →
      code_split_scan reduced (es1 ++ .instruction m :: es2) i0 offsetN =
        .mid (i0 + es1.length) := by
  intro es1
  induction es1 with
  | nil =>
    intro m es2 i0 offsetN reduced h1 h2
    simp only [instr_bytes, Nat.add_zero] at h1 h2
    simp only [List.nil_append, code_split_scan]
    rw [if_neg (by omega)]
    rw [if_pos (by omega)]
    simp
  | cons e rest ih =>
    intro m es2 i0 offsetN reduced h1 h2
    cases e with
    | instruction m' =>
      simp only [instr_bytes] at h1 h2
      simp only [List.cons_append, code_split_scan, List.append_eq]
      rw [if_neg (by omega), if_neg (by omega)]
      rw [ih m es2 (i0 + 1) (offsetN + m'.num_bytes) reduced (by omega) (by omega)]
      simp only [List.length_cons]
      congr 1
      omega
    | comment_full_line s =>
      simp only [instr_bytes] at h1 h2
      simp only [List.cons_append, code_split_scan, List.append_eq]
      rw [if_neg (by omega)]
      rw [ih m es2 (i0 + 1) offsetN reduced (by omega) (by omega)]
      simp only [List.length_cons]
      congr 1
      omega
    | equ_location_relative off =>
      simp only [instr_bytes] at h1 h2
      simp only [List.cons_append, code_split_scan, List.append_eq]
      rw [ih m es2 (i0 + 1) offsetN reduced (by omega) (by omega)]
      simp only [List.length_cons]
      congr 1
      omega

end Peasauce

namespace Peasauce

/-- Claim C7: calling `split_block` on a CODE block at an address strictly
inside a decoded instruction returns the mid-instruction error and leaves
the number of blocks unchanged; without `own_midinstruction` the state is
untouched, and with it a `LOCATION_RELATIVE_EQU(split_offset)` entry is
inserted into the existing block's line data (right after the instruction
the address falls inside) and that block's cached line count is cleared —
the block is still not split. -/
theorem C7_split_mid_instruction (pd : ProgramData) (address : Nat)
    (own_midinstruction : Bool)
    (bs1 : List SegmentBlock) (block : SegmentBlock) (bs2 : List SegmentBlock)
    (hblocks : pd.blocks = bs1 ++ block :: bs2)
    (haddr : pd.block_addresses = pd.blocks.map (fun b => b.address))
    (hbs1 : ∀ b' ∈ bs1, b'.address ≤ address)
    (hbs2 : ∀ hd, bs2.head? = some hd → address < hd.address)
    (htype : get_block_data_type block = DATA_TYPE_CODE)
    (hseg : block_in_segment pd.loader_segments block = true)
    (hlt : block.address < address)
    (hin : address < block.address + block.length)
    (es1 : List SLDEntry) (m : Match) (es2 : List SLDEntry)
    (hld : block.line_data = .code (es1 ++ .instruction m :: es2))
    (hoff1 : instr_bytes es1 < address - block.address)
    (hoff2 : address - block.address < instr_bytes es1 + m.num_bytes) :
    (split_block pd address own_midinstruction).2.2 = ERR_SPLIT_MIDINSTRUCTION ∧
    (split_block pd address own_midinstruction).1.blocks.length = pd.blocks.length ∧
    (own_midinstruction = false → (split_block pd address own_midinstruction).1 = pd) ∧
    (own_midinstruction = true →
      (split_block pd address own_midinstruction).1.blocks =
        bs1 ++ { block with
          line_data := .code (es1 ++ .instruction m ::
            .equ_location_relative (address - block.address) :: es2),
          line_count := 0 } :: bs2 ∧
      (split_block pd address own_midinstruction).1.block_addresses =
        pd.block_addresses) := by
  have hlook := lookup_block_by_address_eq pd bs1 block bs2 address hblocks haddr hbs1
    (Nat.le_of_lt hlt) hbs2
  have hsegP : block.segment_id < pd.loader_segments.length ∧
      block.address = get_segment_address pd.loader_segments block.segment_id +
        block.segment_offset ∧
      block.segment_offset + block.length ≤
        get_segment_length pd.loader_segments block.segment_id := by
    unfold block_in_segment at hseg
    simp only [Bool.and_eq_true, decide_eq_true_eq, beq_iff_eq] at hseg
    exact ⟨hseg.1.1, hseg.1.2, hseg.2⟩
  have hne : ¬ block.address = address := by omega
  have hbound : ¬ (address < get_segment_address pd.loader_segments block.segment_id ∨
      address ≥ get_segment_address pd.loader_segments block.segment_id +
        get_segment_length pd.loader_segments block.segment_id) := by
    obtain ⟨h1, h2, h3⟩ := hsegP
    omega
  have hred : block.length - (block.length - (address - block.address)) =
      address - block.address := by omega
  have hscan : code_split_scan (address - block.address)
      (codeEntries block.line_data) 0 0 = .mid es1.length := by
    rw [hld]
    simp only [codeEntries]
    have := code_split_scan_mid_aux es1 m es2 0 0 (address - block.address)
      (by omega) (by omega)
    simpa using this
  have hidx : ((bs1.length : Int)).toNat = bs1.length := by simp
  cases own_midinstruction with
  | false =>
    have hrun : split_block pd address false = (pd, some block, ERR_SPLIT_MIDINSTRUCTION) := by
      unfold split_block
      rw [hlook]
      dsimp only
      rw [if_neg hne, if_neg hbound, if_pos htype, hred, hscan]
      rfl
    rw [hrun]
    refine ⟨rfl, rfl, fun _ => rfl, fun h => by simp at h⟩
  | true =>
    have hrun : split_block pd address true =
        (clear_block_line_count
          { pd with blocks := listModify pd.blocks bs1.length (fun b =>
              { b with line_data := .code (listInsert (codeEntries b.line_data)
                  (es1.length + 1)
                  (.equ_location_relative (address - block.address))) }) } bs1.length,
         pyget (clear_block_line_count
          { pd with blocks := listModify pd.blocks bs1.length (fun b =>
              { b with line_data := .code (listInsert (codeEntries b.line_data)
                  (es1.length + 1)
                  (.equ_location_relative (address - block.address))) }) } bs1.length).blocks
            ((bs1.length : Int)),
         ERR_SPLIT_MIDINSTRUCTION) := by
      unfold split_block
      rw [hlook]
      dsimp only
      rw [if_neg hne, if_neg hbound, if_pos htype, hred, hscan]
      rfl
    have hb1 : listModify pd.blocks bs1.length (fun b =>
        { b with line_data := .code (listInsert (codeEntries b.line_data)
            (es1.length + 1)
            (.equ_location_relative (address - block.address))) }) =
        bs1 ++ { block with line_data := .code (es1 ++ .instruction m ::
            .equ_location_relative (address - block.address) :: es2) } :: bs2 := by
      rw [hblocks, listModify_append]
      congr 2
      rw [hld]
      simp only [codeEntries]
      rw [listInsert_append_succ]
    have hb2 : (clear_block_line_count
        { pd with blocks := listModify pd.blocks bs1.length (fun b =>
            { b with line_data := .code (listInsert (codeEntries b.line_data)
                (es1.length + 1)
                (.equ_location_relative (address - block.address))) }) } bs1.length).blocks =
        bs1 ++ { block with
          line_data := .code (es1 ++ .instruction m ::
            .equ_location_relative (address - block.address) :: es2),
          line_count := 0 } :: bs2 := by
      unfold clear_block_line_count
      dsimp only
      rw [hb1, listModify_append]
    rw [hrun]
    refine ⟨rfl, ?_, fun h => by simp at h, fun _ => ⟨?_, rfl⟩⟩
    · dsimp only
      rw [hb2, hblocks]
      simp
    · dsimp only
      rw [hb2]

/-- Witness for C7: splitting the two-instruction CODE block of
`examplePdCode` at address 2, strictly inside its first instruction. -/
theorem C7_split_mid_instruction_witness :
    (split_block examplePdCode 2 true).2.2 = ERR_SPLIT_MIDINSTRUCTION ∧
    (split_block examplePdCode 2 true).1.blocks.length = examplePdCode.blocks.length :=
  let h := C7_split_mid_instruction examplePdCode 2 true []
    { segment_id := 0, segment_offset := 0, address := 0, length := 8,
      flags := DATA_TYPE_CODE,
      line_data := .code [.instruction ⟨4, "MOVE"⟩, .instruction ⟨4, "RTS"⟩],
      line_count := 0, references := none, old_data_type := 0 } []
    (by decide) (by decide) (by decide) (by intro hd hh; simp at hh)
    (by decide) (by decide) (by decide) (by decide)
    [] ⟨4, "MOVE"⟩ [.instruction ⟨4, "RTS"⟩]
    (by decide) (by decide) (by decide)
  ⟨h.1, h.2.1⟩

/-! ## Line-number index lemmas and the file line count (C4) -/

lemma cumulLine0s_length (pd : ProgramData) :
    ∀ (bs : List SegmentBlock) (s : Nat), (cumulLine0s pd bs s).length = bs.length := by
  intro bs
  induction bs with
  | nil => intro s; rfl
  | cons b rest ih => intro s; simp [cumulLine0s, ih]

lemma blocks_line_count_sum_append (pd : ProgramData) (xs ys : List SegmentBlock) :
    blocks_line_count_sum pd (xs ++ ys) =
      blocks_line_count_sum pd xs + blocks_line_count_sum pd ys := by
  induction xs with
  | nil => simp [blocks_line_count_sum]
  | cons b rest ih => simp [blocks_line_count_sum, ih]; omega

lemma cumulLine0s_append (pd : ProgramData) :
    ∀ (xs ys : List SegmentBlock) (s : Nat),
      cumulLine0s pd (xs ++ ys) s =
        cumulLine0s pd xs s ++ cumulLine0s pd ys (s + blocks_line_count_sum pd xs) := by
  intro xs
  induction xs with
  | nil => intro ys s; simp [cumulLine0s, blocks_line_count_sum]
  | cons b rest ih =>
    intro ys s
    simp only [List.cons_append, cumulLine0s, blocks_line_count_sum, ih, List.append_eq,
      List.cons_append]
    have harith : s + (get_block_line_count_cached pd b + blocks_line_count_sum pd rest) =
        s + get_block_line_count_cached pd b + blocks_line_count_sum pd rest := by omega
    rw [harith]

/-- Claim C4: `get_file_line_count` equals the last block's first-line
number plus that block's line count plus the file footer, where the footer
is exactly 1 line when the last block's own footer line count is positive
and exactly 2 lines (blank + `END`) otherwise; equivalently, with a clean
line index the total equals the sum of all block line counts plus the
footer. -/
theorem C4_file_line_count (pd : ProgramData)
    (bs1 : List SegmentBlock) (last_block : SegmentBlock)
    (hsplit : pd.blocks = bs1 ++ [last_block])
    (hclean : line_index_clean pd = true) :
    get_file_line_count pd =
      blocks_line_count_sum pd pd.blocks + get_file_footer_line_count pd ∧
    get_file_footer_line_count pd =
      (if 0 < get_block_footer_line_count pd last_block ((pd.blocks.length : Int) - 1)
       then 1 else 2) := by
  have hcleanP : pd.block_line0s_dirtyidx = none ∧
      pd.block_line0s = cumulLine0s pd pd.blocks 0 := by
    unfold line_index_clean at hclean
    simp only [Bool.and_eq_true, beq_iff_eq] at hclean
    exact hclean
  have hlen : pd.blocks.length = bs1.length + 1 := by rw [hsplit]; simp
  have hidx : ((pd.blocks.length : Int)) - 1 = (bs1.length : Int) := by
    rw [hlen]; push_cast; ring
  have hpylast : pyget pd.blocks ((pd.blocks.length : Int) - 1) = some last_block := by
    rw [hidx, hsplit]
    exact pyget_append_cons bs1 last_block []
  have hline0 : get_block_line_number pd ((pd.blocks.length : Int) - 1) =
      some (blocks_line_count_sum pd bs1) := by
    unfold get_block_line_number recalculate_line_count_index
    rw [hcleanP.1]
    rw [hidx, hcleanP.2, hsplit, cumulLine0s_append]
    have : cumulLine0s pd [last_block] (0 + blocks_line_count_sum pd bs1) =
        (0 + blocks_line_count_sum pd bs1) :: [] := rfl
    rw [this]
    have hlen2 : bs1.length = (cumulLine0s pd bs1 0).length :=
      (cumulLine0s_length pd bs1 0).symm
    rw [show ((bs1.length : Int)) = ((cumulLine0s pd bs1 0).length : Int) by rw [← hlen2]]
    rw [pyget_append_cons]
    simp
  constructor
  · unfold get_file_line_count
    simp only [hpylast, hline0]
    have hsum : blocks_line_count_sum pd pd.blocks =
        blocks_line_count_sum pd bs1 + get_block_line_count_cached pd last_block := by
      rw [hsplit, blocks_line_count_sum_append]
      simp [blocks_line_count_sum]
    omega
  · unfold get_file_footer_line_count
    simp only [hpylast]

/-- Witness for C4 at the one-block code example program. -/
theorem C4_file_line_count_witness :
    get_file_line_count examplePdCode =
      blocks_line_count_sum examplePdCode examplePdCode.blocks +
        get_file_footer_line_count examplePdCode :=
  (C4_file_line_count examplePdCode []
    { segment_id := 0, segment_offset := 0, address := 0, length := 8,
      flags := DATA_TYPE_CODE,
      line_data := .code [.instruction ⟨4, "MOVE"⟩, .instruction ⟨4, "RTS"⟩],
      line_count := 0, references := none, old_data_type := 0 }
    (by decide) (by decide)).1

/-! ## Pending-symbol labeling (C8) -/

/-- Claim C8, amended: one step of the post-worklist labeling loop of
`_process_address_as_code`, for a pending address without an existing
symbol.  A target already at a block boundary, or successfully split to
one, receives the label `lb` + one of `C A B W L` (by the containing
block's data type) + the 6-hex-digit address; a mid-instruction target that
cannot be split receives `SYM` + 6 hex digits.  An out-of-bounds target is
handed the `lbZ` + 6-hex-digit label only when `check_known_address`
accepts the address (i.e. one past the first range); otherwise
`insert_symbol` silently drops the label and the state is unchanged. -/
theorem C8_pending_symbol_labels (pd : ProgramData) (address : Nat)
    (block : SegmentBlock) (bi : Int)
    (hnosym : dictGet pd.symbols_by_address address = none)
    (hlookup : lookup_block_by_address pd address = (some block, bi)) :
    (block.address = address →
      ∀ pdc, check_known_address pd address = some (true, pdc) →
        dictGet (process_pending_symbol_addresses pd [address]).symbols_by_address address =
          some ("lb" ++ data_type_label_char (get_block_data_type block) ++ hex6 address)) ∧
    (block.address ≠ address →
      ∀ pd2 nb code, split_block pd address true = (pd2, some nb, code) →
        (0 ≤ code →
          ∀ pdc, check_known_address pd2 address = some (true, pdc) →
            dictGet (process_pending_symbol_addresses pd [address]).symbols_by_address
                address =
              some ("lb" ++ data_type_label_char (get_block_data_type nb) ++ hex6 address)) ∧
        (code = ERR_SPLIT_MIDINSTRUCTION →
          ∀ pdc, check_known_address pd2 address = some (true, pdc) →
            dictGet (process_pending_symbol_addresses pd [address]).symbols_by_address
                address =
              some ("SYM" ++ hex6 address)) ∧
        (code = ERR_SPLIT_BOUNDS →
          (∀ pdc, check_known_address pd2 address = some (true, pdc) →
            dictGet (process_pending_symbol_addresses pd [address]).symbols_by_address
                address =
              some ("lbZ" ++ hex6 address)) ∧
          (check_known_address pd2 address = some (false, pd2) →
            process_pending_symbol_addresses pd [address] = pd2))) := by
  have hstep : process_pending_symbol_addresses pd [address] =
      process_pending_symbol_address pd address := rfl
  rw [hstep]
  unfold process_pending_symbol_address
  rw [hnosym]
  simp only [Option.isSome_none, Bool.false_eq_true, if_false]
  rw [hlookup]
  dsimp only
  constructor
  · intro heq pdc hcheck
    rw [if_neg (show ¬ block.address ≠ address from fun h => h heq)]
    unfold insert_symbol
    rw [hcheck]
    dsimp only
    exact dictGet_dictSet_self _ _ _
  · intro hne pd2 nb code hsplit
    rw [if_pos hne, hsplit]
    dsimp only
    refine ⟨?_, ?_, ?_⟩
    · intro hok pdc hcheck
      have herr : IS_SPLIT_ERR code = false := by
        unfold IS_SPLIT_ERR
        simp only [decide_eq_false_iff_not, not_lt]
        exact hok
      rw [herr]
      simp only [Bool.false_eq_true, if_false]
      unfold insert_symbol
      rw [hcheck]
      dsimp only
      exact dictGet_dictSet_self _ _ _
    · intro hmid pdc hcheck
      subst hmid
      rw [show IS_SPLIT_ERR ERR_SPLIT_MIDINSTRUCTION = true from rfl]
      rw [if_pos rfl]
      rw [if_neg (by decide), if_pos rfl]
      unfold insert_symbol
      rw [hcheck]
      dsimp only
      exact dictGet_dictSet_self _ _ _
    · intro hbounds
      subst hbounds
      rw [show IS_SPLIT_ERR ERR_SPLIT_BOUNDS = true from rfl]
      rw [if_pos rfl, if_pos rfl]
      constructor
      · intro pdc hcheck
        unfold insert_symbol
        rw [hcheck]
        dsimp only
        exact dictGet_dictSet_self _ _ _
      · intro hcheck
        unfold insert_symbol
        rw [hcheck]

/-- Counterexample to claim C8 as stated: the far out-of-bounds pending
address 100 fails its split with the bounds error, `check_known_address`
rejects it, and so it ends up with NO symbol at all — not an `lbZ` label. -/
theorem C8_out_of_bounds_label_dropped :
    (split_block examplePdTwoBlocks 100 true).2.2 = ERR_SPLIT_BOUNDS ∧
    (check_known_address examplePdTwoBlocks 100).map (fun r => r.1) = some false ∧
    dictGet (process_pending_symbol_addresses examplePdTwoBlocks [100]).symbols_by_address
        100 = none := by
  decide

/-- Witness for C8 at a pending address already on a CODE block boundary. -/
theorem C8_pending_symbol_labels_witness :
    dictGet (process_pending_symbol_addresses examplePdCode [0]).symbols_by_address 0 =
      some ("lb" ++ data_type_label_char (get_block_data_type
        { segment_id := 0, segment_offset := 0, address := 0, length := 8,
          flags := DATA_TYPE_CODE,
          line_data := .code [.instruction ⟨4, "MOVE"⟩, .instruction ⟨4, "RTS"⟩],
          line_count := 0, references := none, old_data_type := 0 }) ++ hex6 0) :=
  (C8_pending_symbol_labels examplePdCode 0
    { segment_id := 0, segment_offset := 0, address := 0, length := 8,
      flags := DATA_TYPE_CODE,
      line_data := .code [.instruction ⟨4, "MOVE"⟩, .instruction ⟨4, "RTS"⟩],
      line_count := 0, references := none, old_data_type := 0 } 0
    (by decide) (by decide)).1 rfl examplePdCode rfl

end Peasauce

/-! ## Split preserves the partition invariants (C1) -/

namespace Peasauce

lemma chain_pair_iff (b1 b2 : SegmentBlock) :
    chain_pair b1 b2 = true ↔
      (b1.address + b1.length ≤ b2.address ∧
        (b1.segment_id = b2.segment_id → b1.address + b1.length = b2.address)) := by
  unfold chain_pair
  simp only [Bool.and_eq_true, decide_eq_true_eq, Bool.or_eq_true, bne_iff_ne, ne_eq,
    beq_iff_eq]
  constructor
  · rintro ⟨h1, h2 | h2⟩
    · exact ⟨h1, fun h => absurd h h2⟩
    · exact ⟨h1, fun _ => h2⟩
  · rintro ⟨h1, h2⟩
    by_cases h : b1.segment_id = b2.segment_id
    · exact ⟨h1, Or.inr (h2 h)⟩
    · exact ⟨h1, Or.inl h⟩

lemma chain_pair_left_congr (b1 b1' b2 : SegmentBlock)
    (haddr : b1'.address + b1'.length = b1.address + b1.length)
    (hseg : b1'.segment_id = b1.segment_id)
    (h : chain_pair b1 b2 = true) : chain_pair b1' b2 = true := by
  rw [chain_pair_iff] at h ⊢
  rw [haddr, hseg]
  exact h

lemma chain_pair_right_congr (b1 b2 b2' : SegmentBlock)
    (haddr : b2'.address = b2.address)
    (hseg : b2'.segment_id = b2.segment_id)
    (h : chain_pair b1 b2 = true) : chain_pair b1 b2' = true := by
  rw [chain_pair_iff] at h ⊢
  rw [haddr, hseg]
  exact h

lemma blocks_chain_ok_cons_iff (b : SegmentBlock) (l : List SegmentBlock) :
    blocks_chain_ok (b :: l) = true ↔
      (∀ y, l.head? = some y → chain_pair b y = true) ∧ blocks_chain_ok l = true := by
  cases l with
  | nil => simp [blocks_chain_ok]
  | cons c t =>
    simp only [blocks_chain_ok, Bool.and_eq_true, List.head?]
    constructor
    · rintro ⟨h1, h2⟩
      exact ⟨fun y hy => by injection hy with hy; rw [← hy]; exact h1, h2⟩
    · rintro ⟨h1, h2⟩
      exact ⟨h1 c rfl, h2⟩

lemma blocks_chain_ok_append_iff :
    ∀ (l1 l2 : List SegmentBlock),
      blocks_chain_ok (l1 ++ l2) = true ↔
        blocks_chain_ok l1 = true ∧ blocks_chain_ok l2 = true ∧
          (∀ x, l1.getLast? = some x → ∀ y, l2.head? = some y → chain_pair x y = true) := by
  intro l1
  induction l1 with
  | nil =>
    intro l2
    simp [blocks_chain_ok]
  | cons a t ih =>
    intro l2
    cases t with
    | nil =>
      constructor
      · intro h
        rw [List.singleton_append, blocks_chain_ok_cons_iff] at h
        refine ⟨rfl, h.2, ?_⟩
        intro x hx y hy
        simp only [List.getLast?_singleton] at hx
        injection hx with hx
        subst hx
        exact h.1 y hy
      · rintro ⟨h1, h2, h3⟩
        rw [List.singleton_append, blocks_chain_ok_cons_iff]
        refine ⟨?_, h2⟩
        intro y hy
        exact h3 a (by simp) y hy
    | cons b t2 =>
      constructor
      · intro h
        rw [show (a :: b :: t2) ++ l2 = a :: ((b :: t2) ++ l2) from rfl,
          blocks_chain_ok_cons_iff] at h
        obtain ⟨h1, h2⟩ := h
        rw [ih l2] at h2
        obtain ⟨h3, h4, h5⟩ := h2
        refine ⟨?_, h4, ?_⟩
        · rw [blocks_chain_ok_cons_iff]
          refine ⟨?_, h3⟩
          intro y hy
          simp only [List.head?] at hy
          injection hy with hy
          subst hy
          exact h1 b rfl
        · intro x hx y hy
          rw [List.getLast?_cons_cons] at hx
          exact h5 x hx y hy
      · rintro ⟨hc, h4, h5⟩
        rw [show (a :: b :: t2) ++ l2 = a :: ((b :: t2) ++ l2) from rfl,
          blocks_chain_ok_cons_iff]
        rw [blocks_chain_ok_cons_iff] at hc
        obtain ⟨h1, h3⟩ := hc
        refine ⟨?_, ?_⟩
        · intro y hy
          have hhd : ((b :: t2) ++ l2).head? = some b := rfl
          rw [hhd] at hy
          injection hy with hy
          subst hy
          exact h1 b rfl
        · rw [ih l2]
          refine ⟨h3, h4, ?_⟩
          intro x hx y hy
          apply h5 x _ y hy
          rw [List.getLast?_cons_cons]
          exact hx

lemma block_in_segment_iff (segments : List Segment) (b : SegmentBlock) :
    block_in_segment segments b = true ↔
      (b.segment_id < segments.length ∧
        b.address = get_segment_address segments b.segment_id + b.segment_offset ∧
        b.segment_offset + b.length ≤ get_segment_length segments b.segment_id) := by
  unfold block_in_segment
  simp only [Bool.and_eq_true, decide_eq_true_eq, beq_iff_eq]
  constructor
  · rintro ⟨⟨h1, h2⟩, h3⟩
    exact ⟨h1, h2, h3⟩
  · rintro ⟨h1, h2, h3⟩
    exact ⟨⟨h1, h2⟩, h3⟩

lemma split_lists_invariants (segments : List Segment)
    (bs1 bs2 : List SegmentBlock) (block trunc nbX : SegmentBlock)
    (hpos : (bs1 ++ block :: bs2).all (fun b => decide (0 < b.length)) = true)
    (hchain : blocks_chain_ok (bs1 ++ block :: bs2) = true)
    (hseg : (bs1 ++ block :: bs2).all (block_in_segment segments) = true)
    (htseg : trunc.segment_id = block.segment_id)
    (htoff : trunc.segment_offset = block.segment_offset)
    (htaddr : trunc.address = block.address)
    (hnseg : nbX.segment_id = block.segment_id)
    (hnoff : nbX.segment_offset = block.segment_offset + trunc.length)
    (hnaddr : nbX.address = block.address + trunc.length)
    (hsum : trunc.length + nbX.length = block.length)
    (htpos : 0 < trunc.length) (hnpos : 0 < nbX.length) :
    (bs1 ++ trunc :: nbX :: bs2).all (fun b => decide (0 < b.length)) = true ∧
    blocks_chain_ok (bs1 ++ trunc :: nbX :: bs2) = true ∧
    (bs1 ++ trunc :: nbX :: bs2).all (block_in_segment segments) = true := by
  rw [List.all_eq_true] at hpos hseg
  have hsegB : block_in_segment segments block = true :=
    hseg block (by simp)
  rw [block_in_segment_iff] at hsegB
  obtain ⟨hs1, hs2, hs3⟩ := hsegB
  refine ⟨?_, ?_, ?_⟩
  · rw [List.all_eq_true]
    intro x hx
    simp only [List.mem_append, List.mem_cons] at hx
    rcases hx with hx | rfl | rfl | hx
    · exact hpos x (by simp [hx])
    · simpa using htpos
    · simpa using hnpos
    · exact hpos x (by simp [hx])
  · rw [blocks_chain_ok_append_iff] at hchain
    obtain ⟨c1, c2, c3⟩ := hchain
    rw [blocks_chain_ok_cons_iff] at c2
    obtain ⟨c4, c5⟩ := c2
    rw [blocks_chain_ok_append_iff]
    refine ⟨c1, ?_, ?_⟩
    · rw [blocks_chain_ok_cons_iff]
      constructor
      · intro y hy
        simp only [List.head?] at hy
        injection hy with hy
        subst hy
        rw [chain_pair_iff]
        constructor
        · rw [htaddr, hnaddr]
        · intro _
          rw [htaddr, hnaddr]
      · rw [blocks_chain_ok_cons_iff]
        refine ⟨?_, c5⟩
        intro y hy
        refine chain_pair_left_congr block nbX y ?_ hnseg (c4 y hy)
        rw [hnaddr]
        omega
    · intro x hx y hy
      simp only [List.head?] at hy
      injection hy with hy
      subst hy
      exact chain_pair_right_congr x block trunc htaddr htseg (c3 x hx block rfl)
  · rw [List.all_eq_true]
    intro x hx
    simp only [List.mem_append, List.mem_cons] at hx
    rcases hx with hx | rfl | rfl | hx
    · exact hseg x (by simp [hx])
    · rw [block_in_segment_iff]
      refine ⟨by rw [htseg]; exact hs1, ?_, ?_⟩
      · rw [htseg, htoff, htaddr]
        exact hs2
      · rw [htseg, htoff]
        omega
    · rw [block_in_segment_iff]
      refine ⟨by rw [hnseg]; exact hs1, ?_, ?_⟩
      · rw [hnseg, hnoff, hnaddr, hs2]
        omega
      · rw [hnseg, hnoff]
        omega
    · exact hseg x (by simp [hx])

/-- C1: a successful interior split of a block preserves the block-store
partition invariants: both halves have positive length, their lengths sum to
the original length, the new block starts where the truncated block ends,
blocks stay strictly address-ordered and contiguous within each segment,
no block crosses a segment boundary, and `block_addresses` stays the
element-wise address image of `blocks` after the insertion. -/
theorem C1_split_block_invariants (pd : ProgramData) (address : Nat) (own : Bool)
    (bs1 : List SegmentBlock) (block : SegmentBlock) (bs2 : List SegmentBlock)
    (hblocks : pd.blocks = bs1 ++ block :: bs2)
    (hinv : store_invariants pd = true)
    (hbs1 : ∀ b' ∈ bs1, b'.address ≤ address)
    (hbs2 : ∀ hd, bs2.head? = some hd → address < hd.address)
    (hlt : block.address < address)
    (hin : address < block.address + block.length)
    (pd' : ProgramData) (nb : SegmentBlock) (code : Int)
    (hrun : split_block pd address own = (pd', some nb, code))
    (hok : 0 ≤ code) :
    store_invariants pd' = true ∧
    pd'.blocks.length = pd.blocks.length + 1 ∧
    (∃ trunc, pd'.blocks = bs1 ++ trunc :: nb :: bs2 ∧
      trunc.address = block.address ∧
      trunc.segment_id = block.segment_id ∧
      0 < trunc.length ∧ 0 < nb.length ∧
      trunc.length + nb.length = block.length ∧
      nb.address = trunc.address + trunc.length) := by
  have hinvP : (pd.block_addresses = pd.blocks.map (fun b => b.address)) ∧
      pd.blocks.all (fun b => decide (0 < b.length)) = true ∧
      blocks_chain_ok pd.blocks = true ∧
      pd.blocks.all (block_in_segment pd.loader_segments) = true := by
    unfold store_invariants at hinv
    simp only [Bool.and_eq_true, beq_iff_eq] at hinv
    exact ⟨hinv.1.1.1, hinv.1.1.2, hinv.1.2, hinv.2⟩
  obtain ⟨haddr, hpos, hchain, hseg⟩ := hinvP
  have hlookup := lookup_block_by_address_eq pd bs1 block bs2 address hblocks haddr hbs1
    (Nat.le_of_lt hlt) hbs2
  have hsegB : block_in_segment pd.loader_segments block = true := by
    rw [List.all_eq_true] at hseg
    exact hseg block (by rw [hblocks]; simp)
  have hsegP := (block_in_segment_iff pd.loader_segments block).mp hsegB
  obtain ⟨hs1, hs2, hs3⟩ := hsegP
  have hne : ¬ block.address = address := by omega
  have hbound : ¬ (address < get_segment_address pd.loader_segments block.segment_id ∨
      address ≥ get_segment_address pd.loader_segments block.segment_id +
        get_segment_length pd.loader_segments block.segment_id) := by
    omega
  have hred : block.length - (block.length - (address - block.address)) =
      address - block.address := by omega
  have hidx : ((bs1.length : Int)).toNat = bs1.length := by simp
  -- helper equalities for the final assembly, shared by both data-type branches
  have haddr_split : pd.block_addresses =
      (bs1.map (fun b => b.address)) ++ block.address :: (bs2.map (fun b => b.address)) := by
    rw [haddr, hblocks]
    simp
  by_cases hct : get_block_data_type block = DATA_TYPE_CODE
  · -- CODE block: the pre-split scan must land on an entry boundary
    cases hsc : code_split_scan (address - block.address) (codeEntries block.line_data) 0 0 with
    | mid j =>
      exfalso
      cases own with
      | false =>
        unfold split_block at hrun
        rw [hlookup] at hrun
        dsimp only at hrun
        rw [if_neg hne, if_neg hbound, if_pos hct, hred, hsc] at hrun
        dsimp only at hrun
        rw [Prod.mk.injEq, Prod.mk.injEq] at hrun
        have : code = ERR_SPLIT_MIDINSTRUCTION := hrun.2.2.symm
        rw [this] at hok
        exact absurd hok (by decide)
      | true =>
        unfold split_block at hrun
        rw [hlookup] at hrun
        dsimp only at hrun
        rw [if_neg hne, if_neg hbound, if_pos hct, hred, hsc] at hrun
        dsimp only at hrun
        rw [Prod.mk.injEq, Prod.mk.injEq] at hrun
        have : code = ERR_SPLIT_MIDINSTRUCTION := hrun.2.2.symm
        rw [this] at hok
        exact absurd hok (by decide)
    | split_at j =>
      unfold split_block at hrun
      rw [hlookup] at hrun
      dsimp only at hrun
      rw [if_neg hne, if_neg hbound, if_pos hct, hred, hsc] at hrun
      dsimp only at hrun
      rw [hidx] at hrun
      rw [Prod.mk.injEq, Prod.mk.injEq] at hrun
      obtain ⟨hpd2, hnb, hcode⟩ := hrun
      injection hnb with hnb
      set B2 : SegmentBlock :=
        { block with
          length := address - block.address
          line_data := .code ((codeEntries block.line_data).take j)
          references := split_refs_kept block.references address } with hB2
      set NB : SegmentBlock :=
        { segment_id := block.segment_id
          segment_offset := block.segment_offset + (address - block.address)
          address := block.address + (address - block.address)
          length := block.length - (address - block.address)
          flags := block.flags &&& BLOCK_SPLIT_BITMASK
          line_data := .code (rebase_split_entries (address - block.address)
            ((codeEntries block.line_data).drop j))
          line_count := 0
          references := split_refs_moved block.references address
          old_data_type := 0 } with hNB
      have hblocks2 : pd'.blocks = bs1 ++ { B2 with line_count := 0 } :: NB :: bs2 := by
        rw [← hpd2]
        unfold clear_block_line_count insert_block
        dsimp only
        rw [show (listSet pd.blocks bs1.length B2) = bs1 ++ B2 :: bs2 by
          rw [hblocks]; exact listSet_append bs1 block bs2 B2]
        rw [listInsert_append_succ bs1 B2 bs2 NB]
        rw [show bs1.length = (bs1 : List SegmentBlock).length from rfl]
        rw [listModify_append bs1 B2 (NB :: bs2) (fun b => { b with line_count := 0 })]
      have haddrs2 : pd'.block_addresses =
          (bs1.map (fun b => b.address)) ++ block.address :: NB.address ::
            (bs2.map (fun b => b.address)) := by
        rw [← hpd2]
        unfold clear_block_line_count insert_block
        dsimp only
        rw [haddr_split]
        rw [show bs1.length + 1 = ((bs1.map (fun b => b.address))).length + 1 by simp]
        rw [listInsert_append_succ]
      have hfields : ({ B2 with line_count := 0 } : SegmentBlock).segment_id =
            block.segment_id ∧
          ({ B2 with line_count := 0 } : SegmentBlock).segment_offset =
            block.segment_offset ∧
          ({ B2 with line_count := 0 } : SegmentBlock).address = block.address ∧
          ({ B2 with line_count := 0 } : SegmentBlock).length =
            address - block.address := ⟨rfl, rfl, rfl, rfl⟩
      have hsplitinv := split_lists_invariants pd.loader_segments bs1 bs2 block
        ({ B2 with line_count := 0 }) NB
        (by rw [← hblocks]; exact hpos)
        (by rw [← hblocks]; exact hchain)
        (by rw [← hblocks]; exact hseg)
        hfields.1 hfields.2.1 hfields.2.2.1
        rfl (by rw [hfields.2.2.2]) (by rw [hfields.2.2.2])
        (by rw [hfields.2.2.2]; dsimp only [hNB]; omega)
        (by rw [hfields.2.2.2]; omega)
        (by dsimp only [hNB]; omega)
      have hls : pd.loader_segments = pd'.loader_segments := by rw [← hpd2]; rfl
      refine ⟨?_, ?_, ?_⟩
      · unfold store_invariants
        rw [hblocks2, haddrs2, ← hls]
        simp only [Bool.and_eq_true, beq_iff_eq]
        refine ⟨⟨⟨?_, hsplitinv.1⟩, hsplitinv.2.1⟩, hsplitinv.2.2⟩
        simp only [List.map_append, List.map_cons]
      · rw [hblocks2, hblocks]
        simp only [List.length_append, List.length_cons]
        omega
      · refine ⟨{ B2 with line_count := 0 }, ?_, hfields.2.2.1, hfields.1, ?_, ?_, ?_, ?_⟩
        · rw [hblocks2, hnb]
        · rw [hfields.2.2.2]; omega
        · rw [← hnb]; dsimp only [hNB]; omega
        · rw [hfields.2.2.2, ← hnb]; dsimp only [hNB]; omega
        · rw [hfields.2.2.1, hfields.2.2.2, ← hnb]
  · -- non-CODE block
    unfold split_block at hrun
    rw [hlookup] at hrun
    dsimp only at hrun
    rw [if_neg hne, if_neg hbound, if_neg hct, hred] at hrun
    rw [hidx] at hrun
    rw [Prod.mk.injEq, Prod.mk.injEq] at hrun
    obtain ⟨hpd2, hnb, hcode⟩ := hrun
    injection hnb with hnb
    set B2 : SegmentBlock :=
      (if get_block_data_type block = DATA_TYPE_ASCII then
        process_block_as_ascii pd { block with length := address - block.address }
      else { block with length := address - block.address }) with hB2
    set NB : SegmentBlock :=
      (if get_block_data_type block = DATA_TYPE_ASCII then
        process_block_as_ascii pd
          { segment_id := block.segment_id
            segment_offset := block.segment_offset + (address - block.address)
            address := block.address + (address - block.address)
            length := block.length - (address - block.address)
            flags := block.flags &&& BLOCK_SPLIT_BITMASK
            line_data := .noneValue
            line_count := 0
            references := none
            old_data_type := 0 }
      else
        { segment_id := block.segment_id
          segment_offset := block.segment_offset + (address - block.address)
          address := block.address + (address - block.address)
          length := block.length - (address - block.address)
          flags := block.flags &&& BLOCK_SPLIT_BITMASK
          line_data := .noneValue
          line_count := 0
          references := none
          old_data_type := 0 }) with hNB
    have hB2fields : B2.segment_id = block.segment_id ∧
        B2.segment_offset = block.segment_offset ∧
        B2.address = block.address ∧
        B2.length = address - block.address ∧
        B2.line_count = block.line_count := by
      rw [hB2]
      unfold process_block_as_ascii
      split <;> exact ⟨rfl, rfl, rfl, rfl, rfl⟩
    have hNBfields : NB.segment_id = block.segment_id ∧
        NB.segment_offset = block.segment_offset + (address - block.address) ∧
        NB.address = block.address + (address - block.address) ∧
        NB.length = block.length - (address - block.address) := by
      rw [hNB]
      unfold process_block_as_ascii
      split <;> exact ⟨rfl, rfl, rfl, rfl⟩
    have hblocks2 : pd'.blocks = bs1 ++ { B2 with line_count := 0 } :: NB :: bs2 := by
      rw [← hpd2]
      unfold clear_block_line_count insert_block
      dsimp only
      rw [show (listSet pd.blocks bs1.length B2) = bs1 ++ B2 :: bs2 by
        rw [hblocks]; exact listSet_append bs1 block bs2 B2]
      rw [listInsert_append_succ bs1 B2 bs2 NB]
      rw [listModify_append bs1 B2 (NB :: bs2) (fun b => { b with line_count := 0 })]
    have haddrs2 : pd'.block_addresses =
        (bs1.map (fun b => b.address)) ++ block.address :: NB.address ::
          (bs2.map (fun b => b.address)) := by
      rw [← hpd2]
      unfold clear_block_line_count insert_block
      dsimp only
      rw [haddr_split]
      rw [show bs1.length + 1 = ((bs1.map (fun b => b.address))).length + 1 by simp]
      rw [listInsert_append_succ]
    have hTfields : ({ B2 with line_count := 0 } : SegmentBlock).segment_id =
          block.segment_id ∧
        ({ B2 with line_count := 0 } : SegmentBlock).segment_offset =
          block.segment_offset ∧
        ({ B2 with line_count := 0 } : SegmentBlock).address = block.address ∧
        ({ B2 with line_count := 0 } : SegmentBlock).length =
          address - block.address := by
      refine ⟨?_, ?_, ?_, ?_⟩
      · exact hB2fields.1
      · exact hB2fields.2.1
      · exact hB2fields.2.2.1
      · exact hB2fields.2.2.2.1
    have hsplitinv := split_lists_invariants pd.loader_segments bs1 bs2 block
      ({ B2 with line_count := 0 }) NB
      (by rw [← hblocks]; exact hpos)
      (by rw [← hblocks]; exact hchain)
      (by rw [← hblocks]; exact hseg)
      hTfields.1 hTfields.2.1 hTfields.2.2.1
      hNBfields.1 (by rw [hNBfields.2.1, hTfields.2.2.2])
      (by rw [hNBfields.2.2.1, hTfields.2.2.2])
      (by rw [hTfields.2.2.2, hNBfields.2.2.2]; omega)
      (by rw [hTfields.2.2.2]; omega)
      (by rw [hNBfields.2.2.2]; omega)
    have hls : pd.loader_segments = pd'.loader_segments := by rw [← hpd2]; rfl
    refine ⟨?_, ?_, ?_⟩
    · unfold store_invariants
      rw [hblocks2, haddrs2, ← hls]
      simp only [Bool.and_eq_true, beq_iff_eq]
      refine ⟨⟨⟨?_, hsplitinv.1⟩, hsplitinv.2.1⟩, hsplitinv.2.2⟩
      simp only [List.map_append, List.map_cons]
      rw [hTfields.2.2.1]
    · rw [hblocks2, hblocks]
      simp only [List.length_append, List.length_cons]
      omega
    · refine ⟨{ B2 with line_count := 0 }, ?_, hTfields.2.2.1, hTfields.1, ?_, ?_, ?_, ?_⟩
      · rw [hblocks2, hnb]
      · rw [hTfields.2.2.2]; omega
      · rw [← hnb, hNBfields.2.2.2]; omega
      · rw [hTfields.2.2.2, ← hnb, hNBfields.2.2.2]; omega
      · rw [hTfields.2.2.1, hTfields.2.2.2, ← hnb, hNBfields.2.2.1]

theorem C1_split_block_invariants_witness :
    store_invariants examplePdLongword = true ∧
    examplePdLongword.blocks = [] ++ exampleLongwordBlock :: [] ∧
    exampleLongwordBlock.address < 3 ∧
    3 < exampleLongwordBlock.address + exampleLongwordBlock.length ∧
    split_block examplePdLongword 3 false =
      ((split_block examplePdLongword 3 false).1, some exampleLongwordNewBlock, 1) ∧
    store_invariants (split_block examplePdLongword 3 false).1 = true ∧
    (split_block examplePdLongword 3 false).1.blocks.length =
      examplePdLongword.blocks.length + 1 ∧
    (∃ trunc, (split_block examplePdLongword 3 false).1.blocks =
        [] ++ trunc :: exampleLongwordNewBlock :: [] ∧
      trunc.address = exampleLongwordBlock.address ∧
      trunc.segment_id = exampleLongwordBlock.segment_id ∧
      0 < trunc.length ∧ 0 < exampleLongwordNewBlock.length ∧
      trunc.length + exampleLongwordNewBlock.length = exampleLongwordBlock.length ∧
      exampleLongwordNewBlock.address = trunc.address + trunc.length) :=
  ⟨rfl, rfl, by decide, by decide, rfl,
    C1_split_block_invariants examplePdLongword 3 false [] exampleLongwordBlock []
      rfl rfl
      (by intro b hb; exact absurd hb (List.not_mem_nil b))
      (by intro hd h; exact absurd h (by simp))
      (by decide) (by decide)
      (split_block examplePdLongword 3 false).1
      exampleLongwordNewBlock 1
      rfl (by decide)⟩

end Peasauce

/-! ## Round-trip addressing (C3) -/

namespace Peasauce

lemma get_instruction_line_count_pos (pd : ProgramData) (m : Match) :
    1 ≤ get_instruction_line_count pd m := by
  simp only [get_instruction_line_count]
  split
  · omega
  · split <;> omega

lemma code_info_addr_walk_carry (pd : ProgramData) (base address : Nat) :
    ∀ (es : List SLDEntry) (bu ln : Nat) (r : Nat × Match),
      address < base + bu →
      code_info_addr_walk pd base address es bu ln (some r) = some r := by
  intro es
  induction es with
  | nil => intro bu ln r h; simp only [code_info_addr_walk, if_pos h]
  | cons e rest ih =>
    intro bu ln r h
    cases e with
    | instruction m => simp only [code_info_addr_walk, if_pos h]
    | comment_full_line c => simp only [code_info_addr_walk]; exact ih bu (ln + 1) r h
    | equ_location_relative o => simp only [code_info_addr_walk]; exact ih bu (ln + 1) r h

lemma code_info_addr_walk_hit (pd : ProgramData) (base address : Nat)
    (entry : Match) (es2 : List SLDEntry) :
    ∀ (es1 : List SLDEntry) (bu ln : Nat) (prev : Option (Nat × Match)),
      instrs_positive es1 = true →
      address = base + bu + instr_bytes es1 →
      code_info_addr_walk pd base address (es1 ++ .instruction entry :: es2) bu ln prev =
        some (ln + code_entries_line_count pd es1, entry) := by
  intro es1
  induction es1 with
  | nil =>
    intro bu ln prev _ haddr
    simp only [List.nil_append, code_info_addr_walk, instr_bytes] at haddr ⊢
    rw [if_neg (by omega), if_pos (by omega)]
    simp [code_entries_line_count]
  | cons e rest ih =>
    intro bu ln prev hpos haddr
    cases e with
    | instruction m =>
      simp only [instrs_positive, Bool.and_eq_true, decide_eq_true_eq] at hpos
      simp only [instr_bytes] at haddr
      simp only [List.cons_append, code_info_addr_walk, List.append_eq]
      rw [if_neg (by omega), if_neg (by omega)]
      rw [ih (bu + m.num_bytes) (ln + get_instruction_line_count pd m) _ hpos.2 (by omega)]
      simp only [code_entries_line_count]
      rw [Nat.add_assoc]
    | comment_full_line c =>
      simp only [instrs_positive] at hpos
      simp only [instr_bytes] at haddr
      simp only [List.cons_append, code_info_addr_walk, List.append_eq]
      rw [ih bu (ln + 1) prev hpos haddr]
      simp only [code_entries_line_count]
      rw [Nat.add_assoc]
    | equ_location_relative o =>
      simp only [instrs_positive] at hpos
      simp only [instr_bytes] at haddr
      simp only [List.cons_append, code_info_addr_walk, List.append_eq]
      rw [ih bu (ln + 1) prev hpos haddr]
      simp only [code_entries_line_count]
      rw [Nat.add_assoc]

lemma code_info_addr_walk_mid (pd : ProgramData) (base address : Nat)
    (entry : Match) (es2 : List SLDEntry) :
    ∀ (es1 : List SLDEntry) (bu ln : Nat) (prev : Option (Nat × Match)),
      instrs_positive es1 = true →
      base + bu + instr_bytes es1 < address →
      address < base + bu + instr_bytes es1 + entry.num_bytes →
      code_info_addr_walk pd base address (es1 ++ .instruction entry :: es2) bu ln prev =
        some (ln + code_entries_line_count pd es1, entry) := by
  intro es1
  induction es1 with
  | nil =>
    intro bu ln prev _ hlo hhi
    simp only [instr_bytes] at hlo hhi
    simp only [List.nil_append, code_info_addr_walk]
    rw [if_neg (by omega), if_neg (by omega)]
    rw [code_info_addr_walk_carry pd base address es2 (bu + entry.num_bytes) _ _ (by omega)]
    simp [code_entries_line_count]
  | cons e rest ih =>
    intro bu ln prev hpos hlo hhi
    cases e with
    | instruction m =>
      simp only [instrs_positive, Bool.and_eq_true, decide_eq_true_eq] at hpos
      simp only [instr_bytes] at hlo hhi
      simp only [List.cons_append, code_info_addr_walk, List.append_eq]
      rw [if_neg (by omega), if_neg (by omega)]
      rw [ih (bu + m.num_bytes) (ln + get_instruction_line_count pd m) _ hpos.2
        (by omega) (by omega)]
      simp only [code_entries_line_count]
      rw [Nat.add_assoc]
    | comment_full_line c =>
      simp only [instrs_positive] at hpos
      simp only [instr_bytes] at hlo hhi
      simp only [List.cons_append, code_info_addr_walk, List.append_eq]
      rw [ih bu (ln + 1) prev hpos hlo hhi]
      simp only [code_entries_line_count]
      rw [Nat.add_assoc]
    | equ_location_relative o =>
      simp only [instrs_positive] at hpos
      simp only [instr_bytes] at hlo hhi
      simp only [List.cons_append, code_info_addr_walk, List.append_eq]
      rw [ih bu (ln + 1) prev hpos hlo hhi]
      simp only [code_entries_line_count]
      rw [Nat.add_assoc]

lemma code_info_line_walk_hit (pd : ProgramData) (base line_number : Nat)
    (entry : Match) (es2 : List SLDEntry) :
    ∀ (es1 : List SLDEntry) (bu lc : Nat) (prev : Option (Nat × Match)),
      line_number = lc + code_entries_line_count pd es1 →
      code_info_line_walk pd base line_number (es1 ++ .instruction entry :: es2) bu lc prev =
        some (base + bu + instr_bytes es1, entry) := by
  intro es1
  induction es1 with
  | nil =>
    intro bu lc prev hln
    simp only [code_entries_line_count, Nat.add_zero] at hln
    simp only [List.nil_append, code_info_line_walk]
    rw [if_neg (by omega), if_pos hln]
    simp [instr_bytes]
  | cons e rest ih =>
    intro bu lc prev hln
    cases e with
    | instruction m =>
      have hilc := get_instruction_line_count_pos pd m
      simp only [code_entries_line_count] at hln
      simp only [List.cons_append, code_info_line_walk, List.append_eq]
      rw [if_neg (by omega), if_neg (by omega)]
      rw [ih (bu + m.num_bytes) (lc + get_instruction_line_count pd m) _ (by omega)]
      simp only [instr_bytes, Option.some.injEq, Prod.mk.injEq]
      exact ⟨by omega, trivial⟩
    | comment_full_line c =>
      simp only [code_entries_line_count] at hln
      simp only [List.cons_append, code_info_line_walk, List.append_eq]
      rw [if_neg (by omega)]
      rw [ih bu (lc + 1) prev (by omega)]
      simp only [instr_bytes]
    | equ_location_relative o =>
      simp only [code_entries_line_count] at hln
      simp only [List.cons_append, code_info_line_walk, List.append_eq]
      rw [if_neg (by omega)]
      rw [ih bu (lc + 1) prev (by omega)]
      simp only [instr_bytes]

lemma cumulLine0s_le_sum (pd : ProgramData) :
    ∀ (bs : List SegmentBlock) (s : Nat), ∀ x ∈ cumulLine0s pd bs s,
      x ≤ s + blocks_line_count_sum pd bs := by
  intro bs
  induction bs with
  | nil => intro s x hx; exact absurd hx (List.not_mem_nil x)
  | cons b rest ih =>
    intro s x hx
    simp only [cumulLine0s, List.mem_cons] at hx
    rcases hx with rfl | hx
    · simp only [blocks_line_count_sum]; omega
    · have := ih (s + get_block_line_count_cached pd b) x hx
      simp only [blocks_line_count_sum]
      omega

lemma cumulLine0s_head (pd : ProgramData) (bs : List SegmentBlock) (s y : Nat)
    (h : (cumulLine0s pd bs s).head? = some y) : y = s := by
  cases bs with
  | nil => exact absurd h (by simp [cumulLine0s])
  | cons b rest =>
    simp only [cumulLine0s, List.head?_cons, Option.some.injEq] at h
    omega

/-- C3: round-trip addressing.  For an address at the start of a decoded
instruction of a CODE block (in a consistent store: clean line index,
addresses mirroring blocks, the instruction inside the block and its line
inside the block's cached line count), `get_line_number_for_address`
yields a line `L` with `get_address_for_line_number` mapping `L` back to
the instruction's start address, and every address inside the same
instruction maps to the same line `L`. -/
theorem C3_roundtrip_addressing (pd : ProgramData)
    (bs1 bs2 : List SegmentBlock) (block : SegmentBlock)
    (es1 es2 : List SLDEntry) (entry : Match) (a a' : Nat)
    (hblocks : pd.blocks = bs1 ++ block :: bs2)
    (haddr : pd.block_addresses = pd.blocks.map (fun b => b.address))
    (hdirty : pd.block_line0s_dirtyidx = none)
    (hline0s : pd.block_line0s = cumulLine0s pd pd.blocks 0)
    (hct : get_block_data_type block = DATA_TYPE_CODE)
    (hentries : codeEntries block.line_data = es1 ++ .instruction entry :: es2)
    (hpos1 : instrs_positive es1 = true)
    (ha : a = block.address + instr_bytes es1)
    (hbs1 : ∀ b' ∈ bs1, b'.address ≤ a)
    (hbs2 : ∀ hd, bs2.head? = some hd → block.address + block.length ≤ hd.address)
    (hend : instr_bytes es1 + entry.num_bytes ≤ block.length)
    (hL : get_block_header_line_count pd block + code_entries_line_count pd es1 <
      get_block_line_count_cached pd block)
    (ha'lo : a ≤ a') (ha'hi : a' < a + entry.num_bytes) :
    ∃ L, get_line_number_for_address pd a = some L ∧
      get_address_for_line_number pd L = some a ∧
      get_line_number_for_address pd a' = some L := by
  have hrec : recalculate_line_count_index pd = pd := by
    unfold recalculate_line_count_index
    rw [hdirty]
  have hane : a' < block.address + block.length := by omega
  have hlkA : lookup_block_by_address pd a = (some block, (bs1.length : Int)) :=
    lookup_block_by_address_eq pd bs1 block bs2 a hblocks haddr hbs1 (by omega)
      (fun hd hh => by have := hbs2 hd hh; omega)
  have hlkA' : lookup_block_by_address pd a' = (some block, (bs1.length : Int)) :=
    lookup_block_by_address_eq pd bs1 block bs2 a' hblocks haddr
      (fun b' hb => le_trans (hbs1 b' hb) ha'lo) (by omega)
      (fun hd hh => by have := hbs2 hd hh; omega)
  have hdecomp : pd.block_line0s = cumulLine0s pd bs1 0 ++
      blocks_line_count_sum pd bs1 ::
        cumulLine0s pd bs2
          (blocks_line_count_sum pd bs1 + get_block_line_count_cached pd block) := by
    rw [hline0s, hblocks, cumulLine0s_append]
    simp only [cumulLine0s, Nat.zero_add]
  have hpa : pyget pd.block_addresses ((bs1.length : Int)) = some block.address := by
    rw [haddr, hblocks]
    have hlm : (bs1.map (fun b => b.address)).length = bs1.length := List.length_map _ _
    rw [List.map_append, List.map_cons, ← hlm, pyget_append_cons]
  have hbn : get_block_line_number pd ((bs1.length : Int)) =
      some (blocks_line_count_sum pd bs1) := by
    unfold get_block_line_number
    rw [hrec, hdecomp]
    have hlen : (cumulLine0s pd bs1 0).length = bs1.length := cumulLine0s_length pd bs1 0
    rw [← hlen, pyget_append_cons]
  have hinfoA : get_code_block_info_for_address pd a =
      some (blocks_line_count_sum pd bs1 + get_block_header_line_count pd block +
        code_entries_line_count pd es1, entry) := by
    unfold get_code_block_info_for_address
    rw [hlkA]
    dsimp only
    rw [hpa, hbn]
    dsimp only
    rw [hentries]
    exact code_info_addr_walk_hit pd block.address a entry es2 es1 0 _ none hpos1 (by omega)
  have hinfoA' : get_code_block_info_for_address pd a' =
      some (blocks_line_count_sum pd bs1 + get_block_header_line_count pd block +
        code_entries_line_count pd es1, entry) := by
    unfold get_code_block_info_for_address
    rw [hlkA']
    dsimp only
    rw [hpa, hbn]
    dsimp only
    rw [hentries]
    rcases Nat.eq_or_lt_of_le ha'lo with heq | hlt'
    · exact code_info_addr_walk_hit pd block.address a' entry es2 es1 0 _ none hpos1 (by omega)
    · exact code_info_addr_walk_mid pd block.address a' entry es2 es1 0 _ none hpos1
        (by omega) (by omega)
  have hlkL : lookup_block_by_line_count pd
      (blocks_line_count_sum pd bs1 + get_block_header_line_count pd block +
        code_entries_line_count pd es1) = (some block, (bs1.length : Int)) := by
    unfold lookup_block_by_line_count bisect_right
    dsimp only
    rw [hrec, hdecomp]
    have hxsys : cumulLine0s pd bs1 0 ++
        blocks_line_count_sum pd bs1 ::
          cumulLine0s pd bs2
            (blocks_line_count_sum pd bs1 + get_block_line_count_cached pd block) =
        (cumulLine0s pd bs1 0 ++ [blocks_line_count_sum pd bs1]) ++
          cumulLine0s pd bs2
            (blocks_line_count_sum pd bs1 + get_block_line_count_cached pd block) := by
      simp
    rw [hxsys]
    rw [takeWhile_append_length _ _ _
      (by
        intro x hx
        rcases List.mem_append.mp hx with hx1 | hx1
        · have := cumulLine0s_le_sum pd bs1 0 x hx1
          simp only [decide_eq_true_eq]
          omega
        · have : x = blocks_line_count_sum pd bs1 := List.mem_singleton.mp hx1
          simp only [decide_eq_true_eq]
          omega)
      (by
        intro y hy
        have := cumulLine0s_head pd bs2 _ y hy
        simp only [decide_eq_false_iff_not]
        omega)]
    have hlen1 : (cumulLine0s pd bs1 0 ++ [blocks_line_count_sum pd bs1]).length =
        bs1.length + 1 := by
      simp [cumulLine0s_length]
    rw [hlen1]
    have hidx2 : ((bs1.length + 1 : Nat) : Int) - 1 = (bs1.length : Int) := by
      push_cast
      ring
    rw [hidx2, hblocks]
    rw [show ((bs1.length : Nat) : Int) = ((bs1 : List SegmentBlock).length : Int) from rfl]
    rw [pyget_append_cons]
  have hinfoL : get_code_block_info_for_line_number pd
      (blocks_line_count_sum pd bs1 + get_block_header_line_count pd block +
        code_entries_line_count pd es1) = some (a, entry) := by
    unfold get_code_block_info_for_line_number
    rw [hlkL]
    dsimp only
    rw [if_neg (by simp [hct])]
    rw [hpa, hbn]
    dsimp only
    rw [hentries]
    rw [code_info_line_walk_hit pd block.address _ entry es2 es1 0
      (blocks_line_count_sum pd bs1 + get_block_header_line_count pd block) none rfl]
    simp only [Option.some.injEq, Prod.mk.injEq]
    exact ⟨by omega, trivial⟩
  have hlnA : get_line_number_for_address pd a =
      some (blocks_line_count_sum pd bs1 + get_block_header_line_count pd block +
        code_entries_line_count pd es1) := by
    unfold get_line_number_for_address
    rw [hlkA]
    dsimp only
    rw [if_pos hct, hinfoA]
  have hlnA' : get_line_number_for_address pd a' =
      some (blocks_line_count_sum pd bs1 + get_block_header_line_count pd block +
        code_entries_line_count pd es1) := by
    unfold get_line_number_for_address
    rw [hlkA']
    dsimp only
    rw [if_pos hct, hinfoA']
  have haddrL : get_address_for_line_number pd
      (blocks_line_count_sum pd bs1 + get_block_header_line_count pd block +
        code_entries_line_count pd es1) = some a := by
    unfold get_address_for_line_number
    rw [hlkL]
    dsimp only
    rw [if_pos hct, hinfoL]
  exact ⟨_, hlnA, haddrL, hlnA'⟩

theorem C3_roundtrip_addressing_witness :
    examplePdCode.blocks = [] ++ exampleCodeBlock :: [] ∧
    codeEntries exampleCodeBlock.line_data =
      [SLDEntry.instruction ⟨4, "MOVE"⟩] ++ SLDEntry.instruction ⟨4, "RTS"⟩ :: [] ∧
    (4 : Nat) = exampleCodeBlock.address + instr_bytes [SLDEntry.instruction ⟨4, "MOVE"⟩] ∧
    (∃ L, get_line_number_for_address examplePdCode 4 = some L ∧
      get_address_for_line_number examplePdCode L = some 4 ∧
      get_line_number_for_address examplePdCode 5 = some L) :=
  ⟨rfl, rfl, rfl,
    C3_roundtrip_addressing examplePdCode [] [] exampleCodeBlock
      [SLDEntry.instruction ⟨4, "MOVE"⟩] [] ⟨4, "RTS"⟩ 4 5
      rfl rfl rfl rfl rfl rfl (by decide) rfl
      (by intro b hb; exact absurd hb (List.not_mem_nil b))
      (by intro hd h; exact absurd h (by simp))
      (by decide) (by decide) (by decide) (by decide)⟩

end Peasauce
